import Mathlib

/-!
Shallow embedding of the benchmark orchestration engine of the db-benchmark
repository (src/src/benchmark/benchmark-runner.js and the data generator in
src/unnamed/part_007), together with proofs settling the frozen claims about
its natural-language specification.

Modelling conventions:
- JavaScript numbers carrying timing statistics are modelled by `JSNum`
  (a rational, NaN, Infinity or -Infinity), so that the IEEE behaviour of
  `x / 0`, `Math.min()` over an empty argument list, and NaN-poisoned
  comparisons is captured exactly where the source can produce it.
  Raw latency samples are plain rationals.
- Randomness (faker draws, the shuffle, Math.random) is modelled by
  explicit oracle parameters; a theorem quantifying over the oracle holds
  for every possible draw, and a counterexample instantiates the oracle at
  a draw the library can actually produce.
- Asynchronous operations against a backend adapter are modelled by a
  state-passing function `op : σ → σ × Except String ℚ`: one invocation
  advances the adapter state and either returns a measured duration or
  throws.  Console output, spinners and display-only fields are omitted.
-/

namespace DbBenchmark

/-- A JavaScript number as produced by the timing/statistics code:
either a finite value, NaN, Infinity or -Infinity. -/
inductive JSNum where
  | num (q : ℚ)
  | nan
  | inf
  | ninf
deriving DecidableEq

namespace JSNum

/-- JavaScript `<` comparison: any comparison involving NaN is false. -/
def blt : JSNum → JSNum → Bool
  | nan, _ => false
  | _, nan => false
  | num a, num b => a < b
  | num _, inf => true
  | num _, ninf => false
  | inf, _ => false
  | ninf, inf => true
  | ninf, num _ => true
  | ninf, ninf => false

/-- JavaScript addition on the modelled number domain. -/
def add : JSNum → JSNum → JSNum
  | nan, _ => nan
  | _, nan => nan
  | num a, num b => num (a + b)
  | inf, ninf => nan
  | ninf, inf => nan
  | inf, _ => inf
  | _, inf => inf
  | ninf, _ => ninf
  | _, ninf => ninf

end JSNum

/-- JavaScript division of two finite numbers: `0 / 0 = NaN`,
`x / 0 = ±Infinity` for `x ≠ 0`, ordinary division otherwise. -/
def jsDiv (a b : ℚ) : JSNum :=
  if b = 0 then
    if a = 0 then JSNum.nan else if 0 < a then JSNum.inf else JSNum.ninf
  else JSNum.num (a / b)

/-- JavaScript division of a possibly non-finite number by a natural
number (used for the per-backend mean in the winner selection). -/
def JSNum.divNat : JSNum → ℕ → JSNum
  | JSNum.num a, n => jsDiv a n
  | JSNum.nan, _ => JSNum.nan
  | JSNum.inf, _ => JSNum.inf
  | JSNum.ninf, _ => JSNum.ninf

/-- `Math.min(...l)`: `Infinity` on the empty argument list. -/
def jsMinList (l : List ℚ) : JSNum :=
  match l.min? with
  | none => JSNum.inf
  | some q => JSNum.num q

/-- `Math.max(...l)`: `-Infinity` on the empty argument list. -/
def jsMaxList (l : List ℚ) : JSNum :=
  match l.max? with
  | none => JSNum.ninf
  | some q => JSNum.num q

/-! ## Phase Runner (benchmark-runner.js, `runReadBenchmarks`, lines 232-282)

One read operation against one backend is a state-passing function
`op : σ → σ × Except String ℚ`: applying it once performs one invocation,
yielding the successor adapter state and either the measured wall-clock
duration of the call or the thrown error. -/

/-- Apply the operation `n` times in sequence, keeping only the adapter
state.  `callN op n s` is the adapter state after exactly `n` invocations
starting from `s`. -/
def callN {σ : Type} (op : σ → σ × Except String ℚ) : ℕ → σ → σ
  | 0, s => s
  | n + 1, s => callN op n (op s).1

/-- The result of the `i`-th invocation of `op` starting from state `s`. -/
def callResult {σ : Type} (op : σ → σ × Except String ℚ) (s : σ) (i : ℕ) :
    Except String ℚ :=
  (op (callN op i s)).2

/-- Warmup phase (lines 239-245): run the operation `warmupRuns` times,
discarding timing and swallowing errors. -/
def warmupPhase {σ : Type} (op : σ → σ × Except String ℚ) : ℕ → σ → σ
  | 0, s => s
  | n + 1, s => warmupPhase op n (op s).1

/-- Measurement phase (lines 248-265): run the operation
`benchmarkRuns` times; a successful call's duration is pushed onto
`times`, a failing call increments the error count and the remaining
iterations proceed.  Returns the final adapter state, the recorded
sample list (in call order) and the error count. -/
def measurePhase {σ : Type} (op : σ → σ × Except String ℚ) :
    ℕ → σ → σ × List ℚ × ℕ
  | 0, s => (s, [], 0)
  | n + 1, s =>
    let r := op s
    let rest := measurePhase op n r.1
    match r.2 with
    | Except.ok t => (rest.1, t :: rest.2.1, rest.2.2)
    | Except.error _ => (rest.1, rest.2.1, rest.2.2 + 1)

/-- The whole phase-runner loop for one benchmark operation:
`warmupRuns` warmup invocations followed by `benchmarkRuns` measurement
invocations. -/
def runBenchmarkPhases {σ : Type} (op : σ → σ × Except String ℚ)
    (warmupRuns benchmarkRuns : ℕ) (s : σ) : σ × List ℚ × ℕ :=
  measurePhase op benchmarkRuns (warmupPhase op warmupRuns s)

/-- Summary statistics recorded for one read benchmark
(lines 268-278, the fields the claims are about; `description` and
`resultCount` are display-only and omitted). -/
structure ReadStats where
  runs : ℕ
  avgTime : JSNum
  minTime : JSNum
  maxTime : JSNum
  errors : ℕ
deriving DecidableEq

/-- One read benchmark: phases plus the guarded statistics block.
The source stores an entry into the results object only when
`times.length > 0`; an all-fail benchmark therefore leaves the entry
undefined, modelled by `none`. -/
def runReadBenchmark {σ : Type} (op : σ → σ × Except String ℚ)
    (warmupRuns benchmarkRuns : ℕ) (s : σ) : σ × Option ReadStats :=
  let r := runBenchmarkPhases op warmupRuns benchmarkRuns s
  let times := r.2.1
  let errs := r.2.2
  if 0 < times.length then
    (r.1, some { runs := times.length
                 avgTime := jsDiv times.sum times.length
                 minTime := jsMinList times
                 maxTime := jsMaxList times
                 errors := errs })
  else (r.1, none)

/-! ## Entity Batch Writer (benchmark-runner.js, `createBatches` lines
371-377 and `benchmarkEntityWrites` lines 129-172)

A chunk write is modelled by its outcome: `ok i` tells whether the
backend call for chunk `i` succeeds, and `dur i` is the wall-clock
duration the clock reads for it. -/

/-- `createBatches(data, batchSize)`: consecutive slices
`data.slice(i, i + batchSize)` for `i = 0, batchSize, 2·batchSize, …`.
Structured with the fuel `data.length`, which suffices for every
`batchSize ≥ 1`; for `batchSize = 0` the JavaScript loop never
terminates, so no claim is settled at that argument. -/
def createBatchesAux {α : Type} : ℕ → List α → ℕ → List (List α)
  | 0, _, _ => []
  | _ + 1, [], _ => []
  | fuel + 1, a :: data, batchSize =>
    (a :: data).take batchSize :: createBatchesAux fuel ((a :: data).drop batchSize) batchSize

/-- `createBatches` entry point. -/
def createBatches {α : Type} (data : List α) (batchSize : ℕ) : List (List α) :=
  createBatchesAux data.length data batchSize

/-- Results record of `benchmarkEntityWrites` (lines 136-170). -/
structure WriteResults where
  totalRecords : ℕ
  batchSize : ℕ
  batches : ℕ
  times : List ℚ
  errors : ℕ
  totalTime : ℚ
  avgTime : JSNum
  minTime : JSNum
  maxTime : JSNum
  throughput : JSNum
deriving DecidableEq

/-- One chunk iteration of `benchmarkEntityWrites` (lines 146-160): a
successful backend call records the chunk's duration, a caught failure
increments the error counter, and the loop proceeds either way. -/
def writeStep (ok : ℕ → Bool) (dur : ℕ → ℚ) (acc : List ℚ × ℕ) (i : ℕ) :
    List ℚ × ℕ :=
  if ok i then (acc.1 ++ [dur i], acc.2) else (acc.1, acc.2 + 1)

/-- `benchmarkEntityWrites`: split the data into batches, issue the
backend batched write once per chunk, record a duration on success or
increment the error counter on failure, then compute the statistics
unconditionally (lines 164-169): `avgTime = totalTime / times.length`,
`minTime = Math.min(...times)`, `maxTime = Math.max(...times)`,
`throughput = totalRecords / (totalTime / 1000)`. -/
def benchmarkEntityWrites {α : Type} (data : List α) (batchSize : ℕ)
    (ok : ℕ → Bool) (dur : ℕ → ℚ) : WriteResults :=
  let batches := createBatches data batchSize
  let run := (List.range batches.length).foldl (writeStep ok dur) ([], 0)
  let times := run.1
  let totalTime := times.sum
  { totalRecords := data.length
    batchSize := batchSize
    batches := batches.length
    times := times
    errors := run.2
    totalTime := totalTime
    avgTime := jsDiv totalTime times.length
    minTime := jsMinList times
    maxTime := jsMaxList times
    throughput := jsDiv data.length (totalTime / 1000) }

/-! ## Concurrency Harness (benchmark-runner.js, `runConcurrencyTest`,
lines 309-368)

Each virtual user's per-operation outcome is modelled by oracles
`ok userIndex i` (does operation `i` of that user succeed) and
`dur userIndex i` (its measured duration); `elapsed` is the wall-clock
span the harness reads between its start and the last user's
completion. -/

/-- Per-user accumulator (lines 313-318): `operations` is incremented
only after a successful operation (line 341), `errors` on a caught
failure (line 343). -/
structure UserResults where
  userId : ℕ
  operations : ℕ
  errors : ℕ
  times : List ℚ
deriving DecidableEq

/-- One loop iteration of a virtual user (lines 320-345): on success the
duration is recorded and the success counter incremented (lines 340-341),
on a caught error only the error counter is incremented (line 343). -/
def userStep (ok : ℕ → Bool) (dur : ℕ → ℚ) (acc : UserResults) (i : ℕ) : UserResults :=
  if ok i then
    { acc with operations := acc.operations + 1, times := acc.times ++ [dur i] }
  else
    { acc with errors := acc.errors + 1 }

/-- The sequential loop of one virtual user (lines 320-345). -/
def runUserOps (ok : ℕ → Bool) (dur : ℕ → ℚ) (operationsPerUser userIndex : ℕ) :
    UserResults :=
  (List.range operationsPerUser).foldl (userStep ok dur)
    { userId := userIndex, operations := 0, errors := 0, times := [] }

/-- Aggregated concurrency result (lines 358-367). -/
structure ConcurrencyResult where
  concurrentUsers : ℕ
  operationsPerUser : ℕ
  totalOperations : ℕ
  totalErrors : ℕ
  totalTime : ℚ
  avgOperationTime : JSNum
  throughput : JSNum
  errorRate : JSNum
deriving DecidableEq

/-- `runConcurrencyTest`: spawn `concurrentUsers` users, each running
`operationsPerUser` operations, then aggregate (lines 350-367):
`totalOperations` and `totalErrors` are the sums of the per-user
counters, `avgOperationTime = allTimes.sum / allTimes.length`,
`throughput = totalOperations / (elapsed / 1000)` and
`errorRate = totalErrors / (concurrentUsers * operationsPerUser)`. -/
def runConcurrencyTest (ok : ℕ → ℕ → Bool) (dur : ℕ → ℕ → ℚ) (elapsed : ℚ)
    (concurrentUsers operationsPerUser : ℕ) : ConcurrencyResult :=
  let users := (List.range concurrentUsers).map
    (fun ui => runUserOps (ok ui) (dur ui) operationsPerUser ui)
  let totalOperations := (users.map (fun u => u.operations)).sum
  let totalErrors := (users.map (fun u => u.errors)).sum
  let allTimes := (users.map (fun u => u.times)).flatten
  { concurrentUsers := concurrentUsers
    operationsPerUser := operationsPerUser
    totalOperations := totalOperations
    totalErrors := totalErrors
    totalTime := elapsed
    avgOperationTime := jsDiv allTimes.sum allTimes.length
    throughput := jsDiv totalOperations (elapsed / 1000)
    errorRate := jsDiv totalErrors (concurrentUsers * operationsPerUser) }

/-! ## Engine initialization and full run (benchmark-runner.js,
`initialize` lines 40-72 and `runFullBenchmark` lines 546-579)

Each requested backend's `connect()` outcome is an input.  `initialize`
awaits `Promise.all` over all connect promises: it succeeds only when
every connect succeeds, and otherwise rejects with a connect error (the
first settled rejection; modelled as the first in list order), which
`initialize` rethrows after failing the spinner (line 70).
`runFullBenchmark` calls `initialize` first (line 548) inside a `try`
whose `catch` rethrows (line 575), so a single connect failure aborts
the run for every backend and no report is produced; `report` stands
for the per-backend results the phases would have produced had
initialization succeeded. -/

/-- The rejections among the connect outcomes, in list order. -/
def connectErrors (connects : List (String × Except String Unit)) : List String :=
  connects.filterMap (fun p =>
    match p.2 with
    | Except.error e => some e
    | Except.ok _ => none)

/-- `initialize` (lines 40-72), restricted to its decisive behaviour:
`Promise.all` over the connect promises, rethrowing any rejection. -/
def initConnections (connects : List (String × Except String Unit)) :
    Except String Unit :=
  match connectErrors connects with
  | [] => Except.ok ()
  | e :: _ => Except.error e

/-- `runFullBenchmark` (lines 546-579): initialization first; a thrown
connect error propagates to the caller and no benchmark phase runs. -/
def runFullBenchmark (connects : List (String × Except String Unit))
    (report : List (String × ℕ)) : Except String (List (String × ℕ)) :=
  match initConnections connects with
  | Except.error e => Except.error e
  | Except.ok _ => Except.ok report

/-! ## Entity Generator (src/unnamed/part_007, `DataGenerator`)

Seller/buyer identities are modelled by naturals (uuids), instants by
rationals (milliseconds since epoch, as read off JavaScript `Date`
objects).  Random draws are oracle parameters.  Fields that no claim
mentions (`conversation_id`, `status`, `message_count`, contact data,
message content and metadata) are omitted. -/

/-- The default of `generateConversation`'s `platform` parameter. -/
def defaultPlatform : String := "whatsapp"

/-- A generated conversation (the fields the claims are about). -/
structure Conversation where
  id : ℕ
  seller_id : ℕ
  buyer_id : ℕ
  platform : String
  created_at : ℚ
  last_message_at : ℚ
deriving DecidableEq

/-- `generateConversation(sellerId, buyerId, platform = 'whatsapp')`
(part_007 lines 47-66).  `createdAt` is the `faker.date.recent` draw and
`lastMessageAt` the `faker.date.between({from: createdAt, to: now})`
draw; `id` is the uuid draw.  The optional `platform` parameter is
placed last so that the call sites that omit it (the bulk path) read as
in the source. -/
def generateConversation (sellerId buyerId id : ℕ) (createdAt lastMessageAt : ℚ)
    (platform : String := defaultPlatform) : Conversation :=
  { id := id
    seller_id := sellerId
    buyer_id := buyerId
    platform := platform
    created_at := createdAt
    last_message_at := lastMessageAt }

/-- The uniqueness key tracked by `generateConversations`
(line 81: `` `sellerId:buyerId:platform` ``). -/
def convKey (c : Conversation) : ℕ × ℕ × String :=
  (c.seller_id, c.buyer_id, c.platform)

/-- Per-conversation random draws of the bulk path: for a (seller,
buyer) pair, the uuid and the two date draws fed to
`generateConversation`. -/
structure ConvDraws where
  idOf : ℕ → ℕ → ℕ
  createdOf : ℕ → ℕ → ℚ
  lastOf : ℕ → ℕ → ℚ

/-- The inner loop of `generateConversations` for one seller
(part_007 lines 76-89): walk the shuffled buyer list, stop once
`conversationsPerSeller` conversations were created for this seller,
generate a conversation (platform omitted, hence the default), and keep
it only when its (seller, buyer, platform) key is not in the `used`
set.  Returns the conversations kept and the updated key set. -/
def genConvsForSeller (draws : ConvDraws) (sellerId cps : ℕ) :
    List ℕ → ℕ → List (ℕ × ℕ × String) → List Conversation × List (ℕ × ℕ × String)
  | [], _, used => ([], used)
  | b :: rest, created, used =>
    if cps ≤ created then ([], used)
    else
      let conv := generateConversation sellerId b (draws.idOf sellerId b)
        (draws.createdOf sellerId b) (draws.lastOf sellerId b)
      let key := convKey conv
      if key ∈ used then genConvsForSeller draws sellerId cps rest created used
      else
        let next := genConvsForSeller draws sellerId cps rest (created + 1) (key :: used)
        (conv :: next.1, next.2)

/-- Outer loop of `generateConversations` (lines 72-90), threading the
shared `uniqueConversations` set across sellers.  Each seller comes
paired with the freshly shuffled copy of the buyer pool drawn for its
iteration (`faker.helpers.shuffle([...buyerIds])`, line 73). -/
def generateConversationsAux (draws : ConvDraws) (cps : ℕ) :
    List (ℕ × List ℕ) → List (ℕ × ℕ × String) → List Conversation
  | [], _ => []
  | (s, shuffledBuyers) :: rest, used =>
    let r := genConvsForSeller draws s cps shuffledBuyers 0 used
    r.1 ++ generateConversationsAux draws cps rest r.2

/-- `generateConversations(sellerIds, buyerIds, conversationsPerSeller)`
(part_007 lines 68-93). -/
def generateConversations (draws : ConvDraws) (sellers : List (ℕ × List ℕ))
    (cps : ℕ) : List Conversation :=
  generateConversationsAux draws cps sellers []

/-- A message sender role. -/
inductive SenderType where
  | seller
  | buyer
deriving DecidableEq

/-- A generated message (the fields the claims are about). -/
structure Message where
  id : ℕ
  conversation_id : ℕ
  sender_type : SenderType
  sender_id : ℕ
  timestamp : ℚ
deriving DecidableEq

/-- `generateMessage(conversationId, senderId, senderType, baseTimestamp)`
(part_007 lines 96-110) on the bulk path, where `baseTimestamp` is
always a `Date` (truthy), so the `faker.date.recent` fallback never
fires there. -/
def generateMessage (conversationId senderId : ℕ) (senderType : SenderType)
    (id : ℕ) (timestamp : ℚ) : Message :=
  { id := id
    conversation_id := conversationId
    sender_type := senderType
    sender_id := senderId
    timestamp := timestamp }

/-- `generateDistributedTimestamps(startDate, endDate, count)`
(part_007 lines 232-249): `interval = (end - start) / count`, the `i`-th
base time is `start + interval * i`, each base time is perturbed by the
`faker.number.int({min: -interval*0.3, max: interval*0.3})` draw
`offs i`, and the list is sorted ascending. -/
def generateDistributedTimestamps (startDate endDate : ℚ) (count : ℕ)
    (offs : ℕ → ℚ) : List ℚ :=
  let interval := (endDate - startDate) / count
  ((List.range count).map (fun i => startDate + interval * i + offs i)).insertionSort (· ≤ ·)

/-- The constraint the `faker.number.int` draw satisfies: an offset
lies between `-interval * 0.3` and `interval * 0.3` (the library
additionally rounds the bounds to integers; every integer in the range
is a possible draw, so this superset of the observable draws is sound
for universally quantified statements, and counterexamples below pick
integer offsets). -/
def validOffsets (startDate endDate : ℚ) (count : ℕ) (offs : ℕ → ℚ) : Prop :=
  ∀ i < count,
    -((3 / 10) * ((endDate - startDate) / count)) ≤ offs i ∧
      offs i ≤ (3 / 10) * ((endDate - startDate) / count)

/-- `generateConversationMessages(conversation, …, messagesPerConversation)`
(part_007 lines 112-137): distribute `mpc` timestamps across
`[created_at, last_message_at]`, draw each message's sender role
uniformly (`senders i`), take the sender identity from the parent
conversation accordingly, and sort the messages by timestamp.
`ids i` is the uuid draw of the `i`-th message. -/
def generateConversationMessages (conv : Conversation) (mpc : ℕ)
    (offs : ℕ → ℚ) (senders : ℕ → SenderType) (ids : ℕ → ℕ) : List Message :=
  let timestamps := generateDistributedTimestamps conv.created_at conv.last_message_at mpc offs
  let msgs := (List.range mpc).map (fun i =>
    let st := senders i
    let sid := match st with
      | SenderType.seller => conv.seller_id
      | SenderType.buyer => conv.buyer_id
    generateMessage conv.id sid st (ids i) (timestamps.getD i 0))
  msgs.insertionSort (fun a b => a.timestamp ≤ b.timestamp)

/-! ## Aggregator / winner selection (benchmark-runner.js,
`findBestPerformer` lines 498-526 and `generateSummary` lines 485-496)

Per-backend inputs are given in backend-iteration order as association
lists: for writes, the four per-entity-type `throughput` values; for
reads, the per-operation `avgTime` values of the benchmarks that stored
an entry; for concurrency, the single `throughput` value. -/

/-- `reduce((sum, t) => sum + t, 0)` over JavaScript numbers. -/
def jsSum (l : List JSNum) : JSNum := l.foldl JSNum.add (JSNum.num 0)

/-- The per-backend scalar of the writes and reads categories
(lines 509-514): the mean of the collected metric values. -/
def jsMean (l : List JSNum) : JSNum := (jsSum l).divNat l.length

/-- One step of the selection loop (lines 519-522): replace the running
best exactly when the strict comparison in the chosen direction holds
(`value < bestValue` when lower is better, `value > bestValue`
otherwise). -/
def selectStep (lowerIsBetter : Bool) (best : Option String × JSNum)
    (p : String × JSNum) : Option String × JSNum :=
  if (lowerIsBetter && JSNum.blt p.2 best.2) ||
      (!lowerIsBetter && JSNum.blt best.2 p.2) then (some p.1, p.2)
  else best

/-- The selection loop of `findBestPerformer` (lines 501-525):
`bestDb` starts as `null` and `bestValue` as `±Infinity` depending on
the direction. -/
def selectBest (lowerIsBetter : Bool) (values : List (String × JSNum)) :
    Option String × JSNum :=
  values.foldl (selectStep lowerIsBetter)
    (none, if lowerIsBetter then JSNum.inf else JSNum.ninf)

/-- `findBestPerformer('writes', 'throughput')`: the scalar is the mean
throughput across the entity types (lines 507-510), higher is better. -/
def findBestWrites (writes : List (String × List JSNum)) : Option String × JSNum :=
  selectBest false (writes.map (fun p => (p.1, jsMean p.2)))

/-- `findBestPerformer('reads', 'avgTime', true)`: the scalar is the
mean average latency across the read operations (lines 511-514), lower
is better. -/
def findBestReads (reads : List (String × List JSNum)) : Option String × JSNum :=
  selectBest true (reads.map (fun p => (p.1, jsMean p.2)))

/-- `findBestPerformer('concurrency', 'throughput')`: the scalar is the
raw throughput (line 516), higher is better. -/
def findBestConcurrency (conc : List (String × JSNum)) : Option String × JSNum :=
  selectBest false conc

/-- The `winner` section of `generateSummary` (lines 485-496). -/
structure WinnerSummary where
  writes : Option String × JSNum
  reads : Option String × JSNum
  concurrency : Option String × JSNum
deriving DecidableEq

/-- `generateSummary` (winner part). -/
def generateSummary (writesR readsR : List (String × List JSNum))
    (concR : List (String × JSNum)) : WinnerSummary :=
  { writes := findBestWrites writesR
    reads := findBestReads readsR
    concurrency := findBestConcurrency concR }

/-! ## Lemmas about the Concurrency Harness -/

lemma userStep_ops_add_errs (ok : ℕ → Bool) (dur : ℕ → ℚ) (acc : UserResults) (i : ℕ) :
    (userStep ok dur acc i).operations + (userStep ok dur acc i).errors =
      acc.operations + acc.errors + 1 := by
  unfold userStep
  split <;> simp <;> omega

lemma foldl_userStep_ops_add_errs (ok : ℕ → Bool) (dur : ℕ → ℚ) :
    ∀ (l : List ℕ) (acc : UserResults),
      ((l.foldl (userStep ok dur) acc).operations +
        (l.foldl (userStep ok dur) acc).errors) = acc.operations + acc.errors + l.length := by
  intro l
  induction l with
  | nil => intro acc; simp
  | cons i rest ih =>
    intro acc
    simp only [List.foldl_cons, List.length_cons]
    rw [ih, userStep_ops_add_errs]
    omega

/-- Each of a user's `operationsPerUser` attempts increments exactly one
of the two per-user counters. -/
lemma runUserOps_ops_add_errs (ok : ℕ → Bool) (dur : ℕ → ℚ) (o ui : ℕ) :
    (runUserOps ok dur o ui).operations + (runUserOps ok dur o ui).errors = o := by
  unfold runUserOps
  rw [foldl_userStep_ops_add_errs]
  simp

lemma sum_map_add_sum_map {α : Type} (f g : α → ℕ) :
    ∀ l : List α, (l.map f).sum + (l.map g).sum = (l.map (fun x => f x + g x)).sum := by
  intro l
  induction l with
  | nil => simp
  | cons a rest ih => simp only [List.map_cons, List.sum_cons]; omega

lemma runConcurrencyTest_totals (ok : ℕ → ℕ → Bool) (dur : ℕ → ℕ → ℚ)
    (elapsed : ℚ) (u o : ℕ) :
    (runConcurrencyTest ok dur elapsed u o).totalOperations +
      (runConcurrencyTest ok dur elapsed u o).totalErrors = u * o := by
  unfold runConcurrencyTest
  simp only [List.map_map, Function.comp_def]
  rw [sum_map_add_sum_map]
  rw [List.map_congr_left (g := fun _ => o)
    (fun ui _ => runUserOps_ops_add_errs (ok ui) (dur ui) o ui)]
  simp

/-- C10: every one of the `u × o` operation attempts of the Concurrency
Harness increments exactly one of the per-user success counter
(`operations`) or the per-user error counter (`errors`), the aggregates
are the sums of the per-user counters, and therefore
`totalOperations + totalErrors = u × o`. -/
theorem c10_concurrency_operations_plus_errors
    (ok : ℕ → ℕ → Bool) (dur : ℕ → ℕ → ℚ) (elapsed : ℚ) (u o : ℕ) :
    (runConcurrencyTest ok dur elapsed u o).totalOperations +
        (runConcurrencyTest ok dur elapsed u o).totalErrors = u * o ∧
      (runConcurrencyTest ok dur elapsed u o).totalOperations =
        (((List.range u).map
          (fun ui => runUserOps (ok ui) (dur ui) o ui)).map
            (fun r => r.operations)).sum ∧
      (runConcurrencyTest ok dur elapsed u o).totalErrors =
        (((List.range u).map
          (fun ui => runUserOps (ok ui) (dur ui) o ui)).map
            (fun r => r.errors)).sum ∧
      ∀ ui : ℕ, (runUserOps (ok ui) (dur ui) o ui).operations +
        (runUserOps (ok ui) (dur ui) o ui).errors = o := by
  refine ⟨runConcurrencyTest_totals ok dur elapsed u o, rfl, rfl, ?_⟩
  intro ui
  exact runUserOps_ops_add_errs (ok ui) (dur ui) o ui

/-- C1, counterexample: with one user performing one operation that
fails, `totalOperations = 0 ≠ 1 = u × o` — the `totalOperations` field
counts only successful operations, so it does not equal `u × o`
"regardless of how many individual operations fail". -/
theorem c1_counterexample :
    (runConcurrencyTest (fun _ _ => false) (fun _ _ => 0) 1 1 1).totalOperations = 0 ∧
      (runConcurrencyTest (fun _ _ => false) (fun _ _ => 0) 1 1 1).totalErrors = 1 ∧
      (runConcurrencyTest (fun _ _ => false) (fun _ _ => 0) 1 1 1).totalOperations ≠ 1 * 1 := by
  refine ⟨?_, ?_, ?_⟩ <;> decide

/-- C1, amended: the `totalOperations` field of the Concurrency Harness
result counts the successful operations only, so it equals
`u × o − totalErrors`; it equals `u × o` exactly when no individual
operation failed. -/
theorem c1_amended_concurrency_total_operations
    (ok : ℕ → ℕ → Bool) (dur : ℕ → ℕ → ℚ) (elapsed : ℚ) (u o : ℕ) :
    (runConcurrencyTest ok dur elapsed u o).totalOperations =
        u * o - (runConcurrencyTest ok dur elapsed u o).totalErrors ∧
      ((runConcurrencyTest ok dur elapsed u o).totalOperations = u * o ↔
        (runConcurrencyTest ok dur elapsed u o).totalErrors = 0) := by
  have h := runConcurrencyTest_totals ok dur elapsed u o
  omega

/-! ## Lemmas about the Phase Runner -/

lemma warmupPhase_eq_callN {σ : Type} (op : σ → σ × Except String ℚ) :
    ∀ (n : ℕ) (s : σ), warmupPhase op n s = callN op n s := by
  intro n
  induction n with
  | zero => intro s; rfl
  | succ n ih => intro s; simp only [warmupPhase, callN]; exact ih (op s).1

lemma callN_add {σ : Type} (op : σ → σ × Except String ℚ) :
    ∀ (a b : ℕ) (s : σ), callN op (a + b) s = callN op b (callN op a s) := by
  intro a
  induction a with
  | zero => intro b s; rw [Nat.zero_add]; rfl
  | succ a ih =>
    intro b s
    have : a + 1 + b = (a + b) + 1 := by omega
    rw [this]
    simp only [callN]
    exact ih b (op s).1

lemma measurePhase_fst {σ : Type} (op : σ → σ × Except String ℚ) :
    ∀ (m : ℕ) (s : σ), (measurePhase op m s).1 = callN op m s := by
  intro m
  induction m with
  | zero => intro s; rfl
  | succ m ih =>
    intro s
    simp only [measurePhase, callN]
    cases h : (op s).2 <;> simp [ih (op s).1]

lemma measurePhase_times {σ : Type} (op : σ → σ × Except String ℚ) :
    ∀ (m : ℕ) (s : σ),
      (measurePhase op m s).2.1 =
        (List.range m).filterMap (fun i => (callResult op s i).toOption) := by
  intro m
  induction m with
  | zero => intro s; rfl
  | succ m ih =>
    intro s
    have hsucc : ∀ i : ℕ, callResult op s (i + 1) = callResult op (op s).1 i := by
      intro i
      simp only [callResult, callN]
    have hzero : callResult op s 0 = (op s).2 := rfl
    rw [List.range_succ_eq_map]
    simp only [List.filterMap_cons, List.filterMap_map, Function.comp_def,
      Nat.succ_eq_add_one, hsucc, hzero, measurePhase]
    cases h : (op s).2 with
    | ok t => simp [h, Except.toOption, ih (op s).1]
    | error e => simp [h, Except.toOption, ih (op s).1]

lemma measurePhase_count {σ : Type} (op : σ → σ × Except String ℚ) :
    ∀ (m : ℕ) (s : σ),
      (measurePhase op m s).2.1.length + (measurePhase op m s).2.2 = m := by
  intro m
  induction m with
  | zero => intro s; rfl
  | succ m ih =>
    intro s
    simp only [measurePhase]
    cases h : (op s).2 <;> simp only [List.length_cons] <;>
      have := ih (op s).1 <;> omega

/-- C4: a Phase Runner operation with `warmupRuns = w` and
`benchmarkRuns = m` is invoked exactly `w + m` times (the adapter state
evolves as by `w + m` sequential invocations, warmup errors swallowed),
and the recorded latency sample set has length at most `m`, strictly
less than `m` exactly when at least one measurement invocation failed
(the error count is positive). -/
theorem c4_phase_runner_invocations {σ : Type} (op : σ → σ × Except String ℚ)
    (w m : ℕ) (s : σ) :
    (runBenchmarkPhases op w m s).1 = callN op (w + m) s ∧
      (runBenchmarkPhases op w m s).2.1.length ≤ m ∧
      ((runBenchmarkPhases op w m s).2.1.length < m ↔
        0 < (runBenchmarkPhases op w m s).2.2) ∧
      (runBenchmarkPhases op w m s).2.1.length +
        (runBenchmarkPhases op w m s).2.2 = m := by
  unfold runBenchmarkPhases
  rw [warmupPhase_eq_callN]
  have hc := measurePhase_count op m (callN op w s)
  refine ⟨?_, by omega, by omega, hc⟩
  rw [measurePhase_fst, callN_add]

/-! ## Lemmas about the Entity Batch Writer -/

lemma writeFold_spec (ok : ℕ → Bool) (dur : ℕ → ℚ) :
    ∀ (l : List ℕ) (accT : List ℚ) (accE : ℕ),
      (l.foldl (writeStep ok dur) (accT, accE)).1 =
          accT ++ l.filterMap (fun i => if ok i then some (dur i) else none) ∧
        (l.foldl (writeStep ok dur) (accT, accE)).2 =
          accE + (l.filter (fun i => !ok i)).length := by
  intro l
  induction l with
  | nil => intro accT accE; simp
  | cons i rest ih =>
    intro accT accE
    cases h : ok i with
    | true =>
      have hstep : writeStep ok dur (accT, accE) i = (accT ++ [dur i], accE) := by
        simp [writeStep, h]
      have ihh := ih (accT ++ [dur i]) accE
      rw [List.foldl_cons, hstep]
      refine ⟨?_, ?_⟩
      · rw [ihh.1, List.filterMap_cons]
        simp [h]
      · rw [ihh.2, List.filter_cons]
        simp [h]
    | false =>
      have hstep : writeStep ok dur (accT, accE) i = (accT, accE + 1) := by
        simp [writeStep, h]
      have ihh := ih accT (accE + 1)
      rw [List.foldl_cons, hstep]
      refine ⟨?_, ?_⟩
      · rw [ihh.1, List.filterMap_cons]
        simp [h]
      · rw [ihh.2, List.filter_cons]
        simp only [h, Bool.not_false, if_true, List.length_cons, if_pos]
        omega

lemma createBatchesAux_nil {α : Type} :
    ∀ (fuel bs : ℕ), createBatchesAux fuel ([] : List α) bs = [] := by
  intro fuel bs
  cases fuel <;> rfl

lemma createBatchesAux_flatten {α : Type} :
    ∀ (fuel : ℕ) (data : List α) (bs : ℕ), data.length ≤ fuel → 0 < bs →
      (createBatchesAux fuel data bs).flatten = data := by
  intro fuel
  induction fuel with
  | zero =>
    intro data bs hlen _
    have : data = [] := List.eq_nil_of_length_eq_zero (by omega)
    subst this
    rfl
  | succ fuel ih =>
    intro data bs hlen hbs
    cases data with
    | nil => rfl
    | cons a rest =>
      simp only [List.length_cons] at hlen
      have hlen' : ((a :: rest).drop bs).length ≤ fuel := by
        simp only [List.length_drop, List.length_cons]
        omega
      simp only [createBatchesAux, List.flatten_cons]
      rw [ih ((a :: rest).drop bs) bs hlen' hbs]
      exact List.take_append_drop bs (a :: rest)

lemma createBatchesAux_chunk_bounds {α : Type} :
    ∀ (fuel : ℕ) (data : List α) (bs : ℕ), 0 < bs →
      ∀ c ∈ createBatchesAux fuel data bs, c.length ≤ bs ∧ c ≠ [] := by
  intro fuel
  induction fuel with
  | zero => intro data bs _ c hc; simp [createBatchesAux] at hc
  | succ fuel ih =>
    intro data bs hbs c hc
    cases data with
    | nil => simp [createBatchesAux] at hc
    | cons a rest =>
      simp only [createBatchesAux, List.mem_cons] at hc
      cases hc with
      | inl h =>
        subst h
        constructor
        · exact List.length_take_le bs (a :: rest)
        · cases bs with
          | zero => omega
          | succ bs => simp [List.take_cons]
      | inr h => exact ih _ bs hbs c h

lemma createBatchesAux_dropLast_full {α : Type} :
    ∀ (fuel : ℕ) (data : List α) (bs : ℕ), 0 < bs →
      ∀ c ∈ (createBatchesAux fuel data bs).dropLast, c.length = bs := by
  intro fuel
  induction fuel with
  | zero => intro data bs _ c hc; simp [createBatchesAux] at hc
  | succ fuel ih =>
    intro data bs hbs c hc
    cases data with
    | nil => simp [createBatchesAux] at hc
    | cons a rest =>
      simp only [createBatchesAux] at hc
      cases ht : createBatchesAux fuel ((a :: rest).drop bs) bs with
      | nil => rw [ht] at hc; simp at hc
      | cons x xs =>
        rw [ht] at hc
        rw [List.dropLast_cons₂] at hc
        cases hc with
        | head =>
          have hdrop : (a :: rest).drop bs ≠ [] := by
            intro hnil
            rw [hnil, createBatchesAux_nil] at ht
            exact List.noConfusion ht
          have hlong : bs < (a :: rest).length := by
            by_contra hle
            exact hdrop (List.drop_eq_nil_of_le (by omega))
          simp only [List.length_cons] at hlong
          simp only [List.length_take, List.length_cons]
          omega
        | tail _ h =>
          rw [← ht] at h
          exact ih _ bs hbs c h

/-- C5: for every entity list and every positive `batchSize`, the Entity
Batch Writer splits the entities into consecutive chunks
(concatenating the chunks restores the list, every chunk is nonempty of
size at most `batchSize`, and every chunk but possibly the last has
size exactly `batchSize`), issues one backend batched write per chunk
(one loop index per chunk, traversed regardless of earlier failures),
records a duration for each succeeding chunk, and counts one error per
failing chunk while proceeding to the remaining chunks. -/
theorem c5_batch_writer {α : Type} (data : List α) (batchSize : ℕ)
    (ok : ℕ → Bool) (dur : ℕ → ℚ) (hbs : 0 < batchSize) :
    (createBatches data batchSize).flatten = data ∧
      (∀ c ∈ createBatches data batchSize, c.length ≤ batchSize ∧ c ≠ []) ∧
      (∀ c ∈ (createBatches data batchSize).dropLast, c.length = batchSize) ∧
      (benchmarkEntityWrites data batchSize ok dur).batches =
        (createBatches data batchSize).length ∧
      (benchmarkEntityWrites data batchSize ok dur).times =
        (List.range (createBatches data batchSize).length).filterMap
          (fun i => if ok i then some (dur i) else none) ∧
      (benchmarkEntityWrites data batchSize ok dur).errors =
        ((List.range (createBatches data batchSize).length).filter
          (fun i => !ok i)).length := by
  have hfold := writeFold_spec ok dur
    (List.range (createBatches data batchSize).length) [] 0
  refine ⟨createBatchesAux_flatten data.length data batchSize le_rfl hbs,
    fun c hc => createBatchesAux_chunk_bounds data.length data batchSize hbs c hc,
    fun c hc => createBatchesAux_dropLast_full data.length data batchSize hbs c hc,
    rfl, ?_, ?_⟩
  · simpa using hfold.1
  · simpa using hfold.2

/-- C5, witness: 120 entities with `batchSize = 50` produce exactly the
chunks of sizes 50, 50, 20; when chunk 2 of 3 fails, chunks 1 and 3
still record their durations and `errors = 1`. -/
theorem c5_batch_writer_witness :
    (0 < 50 ∧
      (createBatches (List.range 120) 50).flatten = List.range 120 ∧
      (benchmarkEntityWrites (List.range 120) 50 (fun i => i != 1)
        (fun _ => 1)).errors =
        ((List.range (createBatches (List.range 120) 50).length).filter
          (fun i => !(i != 1))).length) ∧
      (createBatches (List.range 120) 50).map List.length = [50, 50, 20] ∧
      (benchmarkEntityWrites (List.range 120) 50 (fun i => i != 1)
        (fun _ => 1)).errors = 1 ∧
      (benchmarkEntityWrites (List.range 120) 50 (fun i => i != 1)
        (fun _ => 1)).times = [1, 1] := by
  have h := c5_batch_writer (List.range 120) 50 (fun i => i != 1)
    (fun _ => 1) (by decide)
  exact ⟨⟨by decide, h.1, h.2.2.2.2.2⟩, by decide, by decide, by decide⟩

/-! ## C7: exclusion of failed calls and the all-fail statistics -/

/-- C7, counterexample: an entity-write benchmark whose single chunk
fails ends with an empty sample list, yet its statistics fields are the
values obtained by computing over that empty sample set —
`avgTime = 0 / 0 = NaN`, `minTime = Math.min() = Infinity`,
`maxTime = Math.max() = -Infinity` (benchmark-runner.js lines 164-169
carry no emptiness guard) — instead of being left undefined as the
claim requires. -/
theorem c7_counterexample :
    (benchmarkEntityWrites ([0] : List ℕ) 1 (fun _ => false) (fun _ => 0)).times = [] ∧
      (benchmarkEntityWrites ([0] : List ℕ) 1 (fun _ => false) (fun _ => 0)).errors = 1 ∧
      (benchmarkEntityWrites ([0] : List ℕ) 1 (fun _ => false) (fun _ => 0)).avgTime =
        jsDiv (List.sum ([] : List ℚ)) (List.length ([] : List ℚ)) ∧
      (benchmarkEntityWrites ([0] : List ℕ) 1 (fun _ => false) (fun _ => 0)).minTime =
        jsMinList [] ∧
      (benchmarkEntityWrites ([0] : List ℕ) 1 (fun _ => false) (fun _ => 0)).maxTime =
        jsMaxList [] ∧
      (benchmarkEntityWrites ([0] : List ℕ) 1 (fun _ => false) (fun _ => 0)).avgTime =
        JSNum.nan ∧
      (benchmarkEntityWrites ([0] : List ℕ) 1 (fun _ => false) (fun _ => 0)).minTime =
        JSNum.inf ∧
      (benchmarkEntityWrites ([0] : List ℕ) 1 (fun _ => false) (fun _ => 0)).maxTime =
        JSNum.ninf := by
  refine ⟨?_, ?_, ?_, ?_, ?_, ?_, ?_, ?_⟩ <;> decide

/-- C7, amended: failed measurement calls are excluded from the latency
sample set in both the read-benchmark and the entity-write paths, so
`avg`/`min`/`max` aggregate only successful calls; when every
read-benchmark measurement call fails, no statistics entry is produced
(the entry stays undefined); but when every entity-write chunk fails,
the write path computes `avgTime = NaN`, `minTime = Infinity`,
`maxTime = -Infinity` over the empty sample set instead of reporting
the statistics as undefined. -/
theorem c7_amended_failed_calls_excluded {σ α : Type}
    (op : σ → σ × Except String ℚ) (w m : ℕ) (s : σ)
    (data : List α) (batchSize : ℕ) (okc : ℕ → Bool) (durc : ℕ → ℚ) :
    (runBenchmarkPhases op w m s).2.1 =
        (List.range m).filterMap
          (fun i => (callResult op (callN op w s) i).toOption) ∧
      ((runReadBenchmark op w m s).2 = none ↔
        (runBenchmarkPhases op w m s).2.1 = []) ∧
      (∀ st : ReadStats, (runReadBenchmark op w m s).2 = some st →
        st.avgTime = jsDiv (runBenchmarkPhases op w m s).2.1.sum
            (runBenchmarkPhases op w m s).2.1.length ∧
          st.minTime = jsMinList (runBenchmarkPhases op w m s).2.1 ∧
          st.maxTime = jsMaxList (runBenchmarkPhases op w m s).2.1 ∧
          st.runs = (runBenchmarkPhases op w m s).2.1.length ∧
          st.errors = (runBenchmarkPhases op w m s).2.2) ∧
      ((benchmarkEntityWrites data batchSize okc durc).times =
        (List.range (createBatches data batchSize).length).filterMap
          (fun i => if okc i then some (durc i) else none)) ∧
      ((∀ i : ℕ, okc i = false) →
        (benchmarkEntityWrites data batchSize okc durc).times = [] ∧
          (benchmarkEntityWrites data batchSize okc durc).avgTime = JSNum.nan ∧
          (benchmarkEntityWrites data batchSize okc durc).minTime = JSNum.inf ∧
          (benchmarkEntityWrites data batchSize okc durc).maxTime = JSNum.ninf) := by
  have htimes : (runBenchmarkPhases op w m s).2.1 =
      (List.range m).filterMap (fun i => (callResult op (callN op w s) i).toOption) := by
    unfold runBenchmarkPhases
    rw [warmupPhase_eq_callN]
    exact measurePhase_times op m (callN op w s)
  have hwtimes : (benchmarkEntityWrites data batchSize okc durc).times =
      (List.range (createBatches data batchSize).length).filterMap
        (fun i => if okc i then some (durc i) else none) := by
    have hfold := writeFold_spec okc durc
      (List.range (createBatches data batchSize).length) [] 0
    simpa using hfold.1
  refine ⟨htimes, ?_, ?_, hwtimes, ?_⟩
  · unfold runReadBenchmark
    dsimp only
    split
    · rename_i hpos
      simp only [reduceCtorEq, false_iff]
      intro hnil
      rw [hnil] at hpos
      simp at hpos
    · rename_i hpos
      simp only [true_iff]
      have : (runBenchmarkPhases op w m s).2.1.length = 0 := by omega
      exact List.eq_nil_of_length_eq_zero this
  · intro st hst
    unfold runReadBenchmark at hst
    dsimp only at hst
    split at hst
    · injection hst with hst
      subst hst
      exact ⟨rfl, rfl, rfl, rfl, rfl⟩
    · exact absurd hst (by simp)
  · intro hall
    have hnil : (benchmarkEntityWrites data batchSize okc durc).times = [] := by
      rw [hwtimes]
      apply List.filterMap_eq_nil_iff.mpr
      intro i _
      rw [hall i]
      simp
    have havg : (benchmarkEntityWrites data batchSize okc durc).avgTime =
        jsDiv (benchmarkEntityWrites data batchSize okc durc).times.sum
          (benchmarkEntityWrites data batchSize okc durc).times.length := rfl
    have hmin : (benchmarkEntityWrites data batchSize okc durc).minTime =
        jsMinList (benchmarkEntityWrites data batchSize okc durc).times := rfl
    have hmax : (benchmarkEntityWrites data batchSize okc durc).maxTime =
        jsMaxList (benchmarkEntityWrites data batchSize okc durc).times := rfl
    rw [havg, hmin, hmax, hnil]
    exact ⟨rfl, by decide, by decide, by decide⟩

/-- C7, witness: with an operation that always succeeds in one
measurement run the read entry is present (not `none`), and a two-chunk
entity write whose every chunk fails has `times = []` and the empty-set
statistics `NaN`, `Infinity`, `-Infinity`. -/
theorem c7_amended_witness :
    (¬ ((runReadBenchmark (fun st => (st, Except.ok 1)) 1 1 ()).2 = none ↔
        (runBenchmarkPhases (fun st => (st, Except.ok 1)) 1 1 ()).2.1 = [])) = False ∧
      (benchmarkEntityWrites ([5, 6] : List ℕ) 1 (fun _ => false) (fun _ => 2)).times = [] ∧
      (benchmarkEntityWrites ([5, 6] : List ℕ) 1 (fun _ => false) (fun _ => 2)).avgTime =
        JSNum.nan ∧
      (benchmarkEntityWrites ([5, 6] : List ℕ) 1 (fun _ => false) (fun _ => 2)).minTime =
        JSNum.inf ∧
      (benchmarkEntityWrites ([5, 6] : List ℕ) 1 (fun _ => false) (fun _ => 2)).maxTime =
        JSNum.ninf := by
  have h := c7_amended_failed_calls_excluded (fun st : Unit => (st, Except.ok (1 : ℚ)))
    1 1 () ([5, 6] : List ℕ) 1 (fun _ => false) (fun _ => 2)
  have hw := h.2.2.2.2 (fun _ => rfl)
  refine ⟨?_, hw.1, hw.2.1, hw.2.2.1, hw.2.2.2⟩
  simp only [eq_iff_iff, iff_false, not_not]
  exact h.2.1

/-! ## C2: behaviour of the engine when a backend fails to connect -/

/-- A first backend name for concrete scenarios. -/
def dbA : String := "backend-a"

/-- A second backend name for concrete scenarios. -/
def dbB : String := "backend-b"

/-- A connect-rejection message for concrete scenarios. -/
def errBoom : String := "connect refused"

/-- C2, counterexample: with two requested backends of which the first
always throws on `connect()`, `runFullBenchmark` rethrows the connect
error and returns no report at all — so no backend receives a
`connection_failed` status entry and the other backend does not run to
completion with full statistics, contrary to the claim. -/
theorem c2_counterexample :
    runFullBenchmark [(dbA, Except.error errBoom), (dbB, Except.ok ())]
        [(dbB, 42)] = Except.error errBoom ∧
      ¬ ∃ rep : List (String × ℕ),
        runFullBenchmark [(dbA, Except.error errBoom), (dbB, Except.ok ())]
          [(dbB, 42)] = Except.ok rep := by
  refine ⟨rfl, ?_⟩
  rintro ⟨rep, h⟩
  simp [runFullBenchmark, initConnections, connectErrors, dbA, dbB, errBoom] at h

/-- C2, amended: if any requested backend's adapter throws on
`connect()`, `initialize` rejects with a connect error and
`runFullBenchmark` rethrows it, aborting the entire run: no report is
produced for any backend, no `connection_failed` status exists, and the
other requested backends are not run to completion by this runner. -/
theorem c2_amended_connect_failure_aborts_run
    (connects : List (String × Except String Unit)) (report : List (String × ℕ))
    (h : ∃ b e, (b, Except.error e) ∈ connects) :
    ∃ e, initConnections connects = Except.error e ∧
      runFullBenchmark connects report = Except.error e := by
  obtain ⟨b, e, hmem⟩ := h
  have hin : e ∈ connectErrors connects := by
    unfold connectErrors
    exact List.mem_filterMap.mpr ⟨(b, Except.error e), hmem, rfl⟩
  cases hce : connectErrors connects with
  | nil => rw [hce] at hin; exact absurd hin (List.not_mem_nil e)
  | cons e' t =>
    refine ⟨e', ?_, ?_⟩
    · unfold initConnections
      rw [hce]
    · unfold runFullBenchmark initConnections
      rw [hce]

/-- C2, witness: the amended behaviour at a concrete two-backend
configuration whose first backend's `connect()` throws. -/
theorem c2_amended_witness :
    (∃ b e, (b, Except.error e) ∈
        [(dbA, Except.error errBoom), (dbB, Except.ok ())]) ∧
      ∃ e, initConnections [(dbA, Except.error errBoom), (dbB, Except.ok ())] =
          Except.error e ∧
        runFullBenchmark [(dbA, Except.error errBoom), (dbB, Except.ok ())]
          [(dbB, 42)] = Except.error e :=
  ⟨⟨dbA, errBoom, List.mem_cons_self _ _⟩,
    c2_amended_connect_failure_aborts_run _ _ ⟨dbA, errBoom, List.mem_cons_self _ _⟩⟩

/-! ## C3: message timestamps versus the conversation time bounds -/

/-- A default message, used only to extract concrete list elements. -/
def msgDefault : Message :=
  { id := 0
    conversation_id := 0
    sender_type := SenderType.buyer
    sender_id := 0
    timestamp := 0 }

/-- C3, counterexample: a conversation with `created_at = 0`,
`last_message_at = 10` and one message per conversation has slot width
`10`; the offset draw `-3` is inside the permitted
`±30%`-of-slot-width range (and is an integer, so `faker.number.int`
can produce it), yet it makes the single message's timestamp `-3`,
strictly before `created_at` — the perturbation scheme does not keep
messages within the conversation's time bounds. -/
theorem c3_counterexample :
    validOffsets 0 10 1 (fun _ => -3) ∧
      (generateConversation 1 2 0 0 10).created_at = 0 ∧
      (generateConversation 1 2 0 0 10).last_message_at = 10 ∧
      ∃ msg ∈ generateConversationMessages (generateConversation 1 2 0 0 10) 1
          (fun _ => -3) (fun _ => SenderType.buyer) (fun _ => 0),
        msg.timestamp < (generateConversation 1 2 0 0 10).created_at := by
  have hmsgs : generateConversationMessages (generateConversation 1 2 0 0 10) 1
      (fun _ => -3) (fun _ => SenderType.buyer) (fun _ => 0) =
      [{ id := 0
         conversation_id := 0
         sender_type := SenderType.buyer
         sender_id := 2
         timestamp := -3 }] := by
    unfold generateConversationMessages generateDistributedTimestamps
      generateConversation generateMessage
    simp [List.range_succ, List.insertionSort, List.orderedInsert]
  refine ⟨?_, rfl, rfl, ?_⟩
  · unfold validOffsets
    intro i _
    norm_num
  · rw [hmsgs]
    refine ⟨_, List.mem_singleton_self _, ?_⟩
    norm_num [generateConversation]

/-- C3, amended: `created_at ≤ last_message_at` holds for every
conversation (the `faker.date.between` draw lies between `created_at`
and now), and every generated message's timestamp `t` satisfies
`created_at - 0.3·slotWidth ≤ t ≤ last_message_at`, where
`slotWidth = (last_message_at - created_at) / messagesPerConversation`:
the upper bound of the claim holds, but the lower bound can be
undershot by up to 30% of the slot width (the first slot's base time is
`created_at` itself and its perturbation may be negative). -/
theorem c3_amended_message_time_bounds :
    (∀ (s b id : ℕ) (c l : ℚ), c ≤ l →
      (generateConversation s b id c l).created_at ≤
        (generateConversation s b id c l).last_message_at) ∧
      ∀ (conv : Conversation) (mpc : ℕ) (offs : ℕ → ℚ)
        (senders : ℕ → SenderType) (ids : ℕ → ℕ),
        conv.created_at ≤ conv.last_message_at → 1 ≤ mpc →
        validOffsets conv.created_at conv.last_message_at mpc offs →
        ∀ msg ∈ generateConversationMessages conv mpc offs senders ids,
          conv.created_at -
              (3 / 10) * ((conv.last_message_at - conv.created_at) / mpc) ≤
            msg.timestamp ∧
          msg.timestamp ≤ conv.last_message_at := by
  refine ⟨fun s b id c l h => h, ?_⟩
  intro conv mpc offs senders ids hcl hmpc hvalid msg hmsg
  have hkey : ∀ t ∈ generateDistributedTimestamps conv.created_at
      conv.last_message_at mpc offs,
      conv.created_at -
          (3 / 10) * ((conv.last_message_at - conv.created_at) / mpc) ≤ t ∧
        t ≤ conv.last_message_at := by
    intro t ht
    unfold generateDistributedTimestamps at ht
    rw [(List.perm_insertionSort _ _).mem_iff] at ht
    obtain ⟨j, hj, hjeq⟩ := List.mem_map.mp ht
    have hjrange : j < mpc := List.mem_range.mp hj
    obtain ⟨hlo, hhi⟩ := hvalid j hjrange
    have hmpcQ : (0 : ℚ) < mpc := by
      have : (1 : ℚ) ≤ mpc := by exact_mod_cast hmpc
      linarith
    have hivnn : 0 ≤ (conv.last_message_at - conv.created_at) / mpc :=
      div_nonneg (by linarith) (le_of_lt hmpcQ)
    have hjQ : (0 : ℚ) ≤ j := by positivity
    have hjle : (j : ℚ) ≤ (mpc : ℚ) - 1 := by
      have : (j : ℚ) + 1 ≤ mpc := by exact_mod_cast hjrange
      linarith
    have hivj : 0 ≤ (conv.last_message_at - conv.created_at) / mpc * j :=
      mul_nonneg hivnn hjQ
    have hivmpc : (conv.last_message_at - conv.created_at) / mpc * mpc =
        conv.last_message_at - conv.created_at := by
      field_simp
    constructor
    · rw [← hjeq]
      linarith
    · rw [← hjeq]
      have hstep : (conv.last_message_at - conv.created_at) / mpc * j ≤
          (conv.last_message_at - conv.created_at) / mpc * ((mpc : ℚ) - 1) :=
        mul_le_mul_of_nonneg_left hjle hivnn
      have h1 : (conv.last_message_at - conv.created_at) / mpc * ((mpc : ℚ) - 1) +
          (3 / 10) * ((conv.last_message_at - conv.created_at) / mpc) ≤
          (conv.last_message_at - conv.created_at) / mpc * mpc := by
        have heq : (conv.last_message_at - conv.created_at) / mpc * ((mpc : ℚ) - 1) +
            (3 / 10) * ((conv.last_message_at - conv.created_at) / mpc) =
            (conv.last_message_at - conv.created_at) / mpc * ((mpc : ℚ) - 7 / 10) := by
          ring
        rw [heq]
        exact mul_le_mul_of_nonneg_left (by linarith) hivnn
      rw [hivmpc] at h1
      linarith
  unfold generateConversationMessages at hmsg
  dsimp only at hmsg
  rw [(List.perm_insertionSort _ _).mem_iff] at hmsg
  obtain ⟨i, hi, hmsgeq⟩ := List.mem_map.mp hmsg
  have hirange : i < mpc := List.mem_range.mp hi
  have hts : msg.timestamp = (generateDistributedTimestamps conv.created_at
      conv.last_message_at mpc offs).getD i 0 := by
    rw [← hmsgeq]
    rfl
  have hleng : (generateDistributedTimestamps conv.created_at
      conv.last_message_at mpc offs).length = mpc := by
    unfold generateDistributedTimestamps
    rw [List.length_insertionSort, List.length_map, List.length_range]
  have htmem : (generateDistributedTimestamps conv.created_at
        conv.last_message_at mpc offs).getD i 0 ∈
      generateDistributedTimestamps conv.created_at conv.last_message_at mpc offs := by
    rw [List.getD_eq_getElem _ _ (by omega)]
    exact List.getElem_mem _
  rw [hts]
  exact hkey _ htmem

/-- C3, witness: a conversation with `created_at = 0`,
`last_message_at = 10`, one message and the zero offset: the message's
timestamp lies within the amended bounds `[-3, 10]`. -/
theorem c3_amended_witness :
    ((0 : ℚ) ≤ 10 ∧ 1 ≤ 1 ∧ validOffsets 0 10 1 (fun _ => 0) ∧
        ((generateConversationMessages (generateConversation 1 2 0 0 10) 1
          (fun _ => 0) (fun _ => SenderType.buyer) (fun _ => 0)).getD 0 msgDefault) ∈
          generateConversationMessages (generateConversation 1 2 0 0 10) 1
            (fun _ => 0) (fun _ => SenderType.buyer) (fun _ => 0)) ∧
      ((0 : ℚ) - (3 / 10) * ((10 - 0) / 1) ≤
          ((generateConversationMessages (generateConversation 1 2 0 0 10) 1
            (fun _ => 0) (fun _ => SenderType.buyer) (fun _ => 0)).getD 0
              msgDefault).timestamp ∧
        ((generateConversationMessages (generateConversation 1 2 0 0 10) 1
          (fun _ => 0) (fun _ => SenderType.buyer) (fun _ => 0)).getD 0
            msgDefault).timestamp ≤ 10) := by
  have hvo : validOffsets 0 10 1 (fun _ => 0) := by
    unfold validOffsets
    intro i _
    norm_num
  have hmsgs : generateConversationMessages (generateConversation 1 2 0 0 10) 1
      (fun _ => 0) (fun _ => SenderType.buyer) (fun _ => 0) =
      [{ id := 0
         conversation_id := 0
         sender_type := SenderType.buyer
         sender_id := 2
         timestamp := 0 }] := by
    unfold generateConversationMessages generateDistributedTimestamps
      generateConversation generateMessage
    simp [List.range_succ, List.insertionSort, List.orderedInsert]
  have hmem : ((generateConversationMessages (generateConversation 1 2 0 0 10) 1
      (fun _ => 0) (fun _ => SenderType.buyer) (fun _ => 0)).getD 0 msgDefault) ∈
      generateConversationMessages (generateConversation 1 2 0 0 10) 1
        (fun _ => 0) (fun _ => SenderType.buyer) (fun _ => 0) := by
    rw [hmsgs]
    exact List.mem_singleton_self _
  refine ⟨⟨by norm_num, le_rfl, hvo, hmem⟩, ?_⟩
  exact c3_amended_message_time_bounds.2 (generateConversation 1 2 0 0 10) 1
    (fun _ => 0) (fun _ => SenderType.buyer) (fun _ => 0)
    (by norm_num [generateConversation]) le_rfl hvo _ hmem

/-! ## Lemmas about `generateConversations` -/

lemma genConvsForSeller_spec (draws : ConvDraws) (sellerId cps : ℕ) :
    ∀ (buyers : List ℕ) (created : ℕ) (used : List (ℕ × ℕ × String)),
      (genConvsForSeller draws sellerId cps buyers created used).2 =
          ((genConvsForSeller draws sellerId cps buyers created used).1.map
            convKey).reverse ++ used ∧
        ((genConvsForSeller draws sellerId cps buyers created used).1.map
          convKey).Nodup ∧
        (∀ c ∈ (genConvsForSeller draws sellerId cps buyers created used).1,
          c.seller_id = sellerId ∧ c.platform = defaultPlatform ∧ convKey c ∉ used) ∧
        (genConvsForSeller draws sellerId cps buyers created used).1.length ≤
          cps - created := by
  intro buyers
  induction buyers with
  | nil =>
    intro created used
    simp [genConvsForSeller]
  | cons b rest ih =>
    intro created used
    by_cases hstop : cps ≤ created
    · simp [genConvsForSeller, hstop]
    · have hkey : convKey (generateConversation sellerId b (draws.idOf sellerId b)
          (draws.createdOf sellerId b) (draws.lastOf sellerId b)) =
          (sellerId, b, defaultPlatform) := rfl
      by_cases hmem : ((sellerId, b, defaultPlatform) : ℕ × ℕ × String) ∈ used
      · have hred : genConvsForSeller draws sellerId cps (b :: rest) created used =
            genConvsForSeller draws sellerId cps rest created used := by
          simp only [genConvsForSeller, if_neg hstop, hkey, if_pos hmem]
        rw [hred]
        exact ih created used
      · have hred : genConvsForSeller draws sellerId cps (b :: rest) created used =
            ((generateConversation sellerId b (draws.idOf sellerId b)
                (draws.createdOf sellerId b) (draws.lastOf sellerId b)) ::
              (genConvsForSeller draws sellerId cps rest (created + 1)
                ((sellerId, b, defaultPlatform) :: used)).1,
              (genConvsForSeller draws sellerId cps rest (created + 1)
                ((sellerId, b, defaultPlatform) :: used)).2) := by
          simp only [genConvsForSeller, if_neg hstop, hkey, if_neg hmem]
        obtain ⟨ih1, ih2, ih3, ih4⟩ := ih (created + 1) ((sellerId, b, defaultPlatform) :: used)
        rw [hred]
        refine ⟨?_, ?_, ?_, ?_⟩
        · simp only [List.map_cons, List.reverse_cons, ih1, hkey]
          simp
        · simp only [List.map_cons, List.nodup_cons, hkey]
          refine ⟨?_, ih2⟩
          intro hc
          obtain ⟨c, hcmem, hck⟩ := List.mem_map.mp hc
          have := (ih3 c hcmem).2.2
          rw [hck] at this
          exact this (List.mem_cons_self _ _)
        · intro c hc
          rcases List.mem_cons.mp hc with hc | hc
          · subst hc
            exact ⟨rfl, rfl, by rw [hkey]; exact hmem⟩
          · obtain ⟨h1, h2, h3⟩ := ih3 c hc
            exact ⟨h1, h2, fun hin => h3 (List.mem_cons_of_mem _ hin)⟩
        · simp only [List.length_cons]
          omega

lemma genConvsForSeller_count (draws : ConvDraws) (sellerId cps : ℕ) :
    ∀ (buyers : List ℕ) (created : ℕ) (used : List (ℕ × ℕ × String)),
      buyers.Nodup →
      (∀ b ∈ buyers, ((sellerId, b, defaultPlatform) : ℕ × ℕ × String) ∉ used) →
      (genConvsForSeller draws sellerId cps buyers created used).1.length =
        min (cps - created) buyers.length := by
  intro buyers
  induction buyers with
  | nil =>
    intro created used _ _
    simp [genConvsForSeller]
  | cons b rest ih =>
    intro created used hnodup hfresh
    by_cases hstop : cps ≤ created
    · simp [genConvsForSeller, hstop]
    · have hkey : convKey (generateConversation sellerId b (draws.idOf sellerId b)
          (draws.createdOf sellerId b) (draws.lastOf sellerId b)) =
          (sellerId, b, defaultPlatform) := rfl
      have hmem : ((sellerId, b, defaultPlatform) : ℕ × ℕ × String) ∉ used :=
        hfresh b (List.mem_cons_self _ _)
      have hred : genConvsForSeller draws sellerId cps (b :: rest) created used =
          ((generateConversation sellerId b (draws.idOf sellerId b)
              (draws.createdOf sellerId b) (draws.lastOf sellerId b)) ::
            (genConvsForSeller draws sellerId cps rest (created + 1)
              ((sellerId, b, defaultPlatform) :: used)).1,
            (genConvsForSeller draws sellerId cps rest (created + 1)
              ((sellerId, b, defaultPlatform) :: used)).2) := by
        simp only [genConvsForSeller, if_neg hstop, hkey, if_neg hmem]
      have hfresh' : ∀ b' ∈ rest,
          ((sellerId, b', defaultPlatform) : ℕ × ℕ × String) ∉
            ((sellerId, b, defaultPlatform) :: used) := by
        intro b' hb' hin
        rcases List.mem_cons.mp hin with heq | hin
        · have hbb : b' = b := by simpa using heq
          subst hbb
          exact (List.nodup_cons.mp hnodup).1 hb'
        · exact hfresh b' (List.mem_cons_of_mem _ hb') hin
      rw [hred]
      simp only [List.length_cons]
      rw [ih (created + 1) _ (List.nodup_cons.mp hnodup).2 hfresh']
      omega

lemma generateConversationsAux_spec (draws : ConvDraws) (cps : ℕ) :
    ∀ (sellers : List (ℕ × List ℕ)) (used : List (ℕ × ℕ × String)),
      ((generateConversationsAux draws cps sellers used).map convKey).Nodup ∧
        (∀ c ∈ generateConversationsAux draws cps sellers used,
          convKey c ∉ used ∧ c.platform = defaultPlatform ∧
            c.seller_id ∈ sellers.map Prod.fst) ∧
        (generateConversationsAux draws cps sellers used).length ≤
          sellers.length * cps := by
  intro sellers
  induction sellers with
  | nil =>
    intro used
    simp [generateConversationsAux]
  | cons p rest ih =>
    intro used
    obtain ⟨s, buyers⟩ := p
    obtain ⟨hs1, hs2, hs3, hs4⟩ := genConvsForSeller_spec draws s cps buyers 0 used
    obtain ⟨ih1, ih2, ih3⟩ := ih (genConvsForSeller draws s cps buyers 0 used).2
    have hred : generateConversationsAux draws cps ((s, buyers) :: rest) used =
        (genConvsForSeller draws s cps buyers 0 used).1 ++
          generateConversationsAux draws cps rest
            (genConvsForSeller draws s cps buyers 0 used).2 := rfl
    rw [hred]
    refine ⟨?_, ?_, ?_⟩
    · rw [List.map_append]
      rw [List.nodup_append]
      refine ⟨hs2, ih1, ?_⟩
      intro k hk1 hk2
      obtain ⟨c, hc, hck⟩ := List.mem_map.mp hk2
      have hfresh := (ih2 c hc).1
      rw [hck] at hfresh
      apply hfresh
      rw [hs1]
      apply List.mem_append_left
      rw [List.mem_reverse]
      exact hk1
    · intro c hc
      rcases List.mem_append.mp hc with hc | hc
      · obtain ⟨h1, h2, h3⟩ := hs3 c hc
        exact ⟨h3, h2, by rw [h1]; exact List.mem_cons_self _ _⟩
      · obtain ⟨h1, h2, h3⟩ := ih2 c hc
        refine ⟨?_, h2, List.mem_cons_of_mem _ h3⟩
        intro hin
        apply h1
        rw [hs1]
        exact List.mem_append_right _ hin
    · rw [List.length_append, List.length_cons]
      have : (cps - 0) = cps := by omega
      rw [this] at hs4
      calc (genConvsForSeller draws s cps buyers 0 used).1.length +
            (generateConversationsAux draws cps rest
              (genConvsForSeller draws s cps buyers 0 used).2).length ≤
          cps + rest.length * cps := by omega
        _ = (rest.length + 1) * cps := by ring

lemma generateConversationsAux_count (draws : ConvDraws) (cps : ℕ) :
    ∀ (sellers : List (ℕ × List ℕ)) (used : List (ℕ × ℕ × String)),
      (sellers.map Prod.fst).Nodup →
      (∀ p ∈ sellers, p.2.Nodup) →
      (∀ k ∈ used, k.1 ∉ sellers.map Prod.fst) →
      (generateConversationsAux draws cps sellers used).length =
        (sellers.map (fun p => min cps p.2.length)).sum := by
  intro sellers
  induction sellers with
  | nil =>
    intro used _ _ _
    simp [generateConversationsAux]
  | cons p rest ih =>
    intro used hsnodup hbnodup hused
    obtain ⟨s, buyers⟩ := p
    have hfresh : ∀ b ∈ buyers,
        ((s, b, defaultPlatform) : ℕ × ℕ × String) ∉ used := by
      intro b _ hin
      exact hused _ hin (List.mem_cons_self _ _)
    have hcount := genConvsForSeller_count draws s cps buyers 0 used
      (hbnodup (s, buyers) (List.mem_cons_self _ _)) hfresh
    obtain ⟨hs1, _, hs3, _⟩ := genConvsForSeller_spec draws s cps buyers 0 used
    have hsnotin : s ∉ rest.map Prod.fst := by
      have := hsnodup
      rw [List.map_cons, List.nodup_cons] at this
      exact this.1
    have hused' : ∀ k ∈ (genConvsForSeller draws s cps buyers 0 used).2,
        k.1 ∉ rest.map Prod.fst := by
      intro k hk
      rw [hs1] at hk
      rcases List.mem_append.mp hk with hk | hk
      · rw [List.mem_reverse] at hk
        obtain ⟨c, hc, hck⟩ := List.mem_map.mp hk
        have := (hs3 c hc).1
        rw [← hck]
        unfold convKey
        simpa [this] using hsnotin
      · intro hin
        exact hused k hk (List.mem_cons_of_mem _ hin)
    have hrestnodup : (rest.map Prod.fst).Nodup := by
      rw [List.map_cons, List.nodup_cons] at hsnodup
      exact hsnodup.2
    have hred : generateConversationsAux draws cps ((s, buyers) :: rest) used =
        (genConvsForSeller draws s cps buyers 0 used).1 ++
          generateConversationsAux draws cps rest
            (genConvsForSeller draws s cps buyers 0 used).2 := rfl
    rw [hred, List.length_append, hcount,
      ih _ hrestnodup (fun q hq => hbnodup q (List.mem_cons_of_mem _ hq)) hused']
    simp only [List.map_cons, List.sum_cons]
    omega

/-- C6: for every scenario the Entity Generator produces at most
`sellers × conversationsPerSeller` conversations, every generated
conversation's (seller, buyer, platform) tuple is unique within the
generated set, and — when the per-seller shuffled buyer pools have no
duplicates and the seller ids are distinct — each seller contributes
exactly `min conversationsPerSeller |buyers|` conversations, so a buyer
pool smaller than requested yields fewer conversations for that seller
without any error. -/
theorem c6_generate_conversations (draws : ConvDraws)
    (sellers : List (ℕ × List ℕ)) (cps : ℕ) :
    (generateConversations draws sellers cps).length ≤ sellers.length * cps ∧
      ((generateConversations draws sellers cps).map convKey).Nodup ∧
      ((sellers.map Prod.fst).Nodup → (∀ p ∈ sellers, p.2.Nodup) →
        (generateConversations draws sellers cps).length =
          (sellers.map (fun p => min cps p.2.length)).sum) := by
  obtain ⟨h1, _, h3⟩ := generateConversationsAux_spec draws cps sellers []
  refine ⟨h3, h1, ?_⟩
  intro hs hb
  exact generateConversationsAux_count draws cps sellers [] hs hb (by simp)

/-- C6, witness: two sellers with buyer pools of sizes 2 and 1 and
`conversationsPerSeller = 5`: the second seller's pool is too small, so
only `min 5 2 + min 5 1 = 3` conversations are produced, all tuples
distinct, without an error. -/
theorem c6_generate_conversations_witness :
    ((([(1, [10, 20]), (2, [10])] : List (ℕ × List ℕ)).map Prod.fst).Nodup ∧
        (∀ p ∈ ([(1, [10, 20]), (2, [10])] : List (ℕ × List ℕ)), p.2.Nodup)) ∧
      (generateConversations ⟨fun _ _ => 0, fun _ _ => 0, fun _ _ => 0⟩
          [(1, [10, 20]), (2, [10])] 5).length ≤ 2 * 5 ∧
      ((generateConversations ⟨fun _ _ => 0, fun _ _ => 0, fun _ _ => 0⟩
          [(1, [10, 20]), (2, [10])] 5).map convKey).Nodup ∧
      (generateConversations ⟨fun _ _ => 0, fun _ _ => 0, fun _ _ => 0⟩
          [(1, [10, 20]), (2, [10])] 5).length =
        (([(1, [10, 20]), (2, [10])] : List (ℕ × List ℕ)).map
          (fun p => min 5 p.2.length)).sum := by
  have h := c6_generate_conversations ⟨fun _ _ => 0, fun _ _ => 0, fun _ _ => 0⟩
    [(1, [10, 20]), (2, [10])] 5
  refine ⟨⟨by decide, by decide⟩, h.1, h.2.1, h.2.2 (by decide) (by decide)⟩

/-- C9: every conversation produced by the bulk path
`generateConversations` (and hence by
`generateRealisticConversationBatch` and every scenario, which obtain
their conversations from it) has `platform = "whatsapp"`: the call at
part_007 line 80 omits the `platform` argument of
`generateConversation`, so its `'whatsapp'` default is always used,
regardless of the referenced buyer's platform. -/
theorem c9_bulk_conversations_platform_whatsapp (draws : ConvDraws)
    (sellers : List (ℕ × List ℕ)) (cps : ℕ) :
    ∀ c ∈ generateConversations draws sellers cps, c.platform = "whatsapp" := by
  intro c hc
  obtain ⟨_, h2, _⟩ := generateConversationsAux_spec draws cps sellers []
  exact (h2 c hc).2.1

/-- A default conversation, used only to extract concrete list
elements. -/
def convDefault : Conversation :=
  { id := 0
    seller_id := 0
    buyer_id := 0
    platform := defaultPlatform
    created_at := 0
    last_message_at := 0 }

/-- C9, witness: the first conversation of a concrete one-seller run
has platform `whatsapp` even though the buyer could live on another
platform (buyer platforms do not enter the bulk path at all). -/
theorem c9_bulk_conversations_platform_witness :
    ((generateConversations ⟨fun _ _ => 0, fun _ _ => 0, fun _ _ => 0⟩
        [(1, [10])] 1).getD 0 convDefault) ∈
        generateConversations ⟨fun _ _ => 0, fun _ _ => 0, fun _ _ => 0⟩
          [(1, [10])] 1 ∧
      ((generateConversations ⟨fun _ _ => 0, fun _ _ => 0, fun _ _ => 0⟩
        [(1, [10])] 1).getD 0 convDefault).platform = "whatsapp" := by
  have hmem : ((generateConversations ⟨fun _ _ => 0, fun _ _ => 0, fun _ _ => 0⟩
      [(1, [10])] 1).getD 0 convDefault) ∈
      generateConversations ⟨fun _ _ => 0, fun _ _ => 0, fun _ _ => 0⟩
        [(1, [10])] 1 := by
    decide
  exact ⟨hmem, c9_bulk_conversations_platform_whatsapp _ _ _ _ hmem⟩

/-! ## Lemmas about the winner selection

`runBestMax`/`runBestMin` restate the selection fold on plain rationals;
the bridge lemmas identify them with the `selectStep` fold on
NaN-free inputs, and the spec lemmas characterize the result as the
first entry attaining the extremum. -/

/-- Junk element used only as a `getD` default. -/
def pairDefault : String × ℚ := ("", 0)

def runBestMax : List (String × ℚ) → String × ℚ → String × ℚ
  | [], acc => acc
  | p :: rest, acc => runBestMax rest (if acc.2 < p.2 then p else acc)

def runBestMin : List (String × ℚ) → String × ℚ → String × ℚ
  | [], acc => acc
  | p :: rest, acc => runBestMin rest (if p.2 < acc.2 then p else acc)

lemma foldl_selectStep_max :
    ∀ (l : List (String × ℚ)) (b : String) (m : ℚ),
      (l.map (fun q => (q.1, JSNum.num q.2))).foldl (selectStep false)
          (some b, JSNum.num m) =
        (some (runBestMax l (b, m)).1, JSNum.num (runBestMax l (b, m)).2) := by
  intro l
  induction l with
  | nil => intro b m; rfl
  | cons p rest ih =>
    intro b m
    simp only [List.map_cons, List.foldl_cons, runBestMax]
    by_cases h : m < p.2
    · have hstep : selectStep false (some b, JSNum.num m) (p.1, JSNum.num p.2) =
          (some p.1, JSNum.num p.2) := by
        simp [selectStep, JSNum.blt, h]
      rw [hstep, if_pos h, ih]
    · have hstep : selectStep false (some b, JSNum.num m) (p.1, JSNum.num p.2) =
          (some b, JSNum.num m) := by
        simp [selectStep, JSNum.blt, h]
      rw [hstep, if_neg h, ih]

lemma foldl_selectStep_min :
    ∀ (l : List (String × ℚ)) (b : String) (m : ℚ),
      (l.map (fun q => (q.1, JSNum.num q.2))).foldl (selectStep true)
          (some b, JSNum.num m) =
        (some (runBestMin l (b, m)).1, JSNum.num (runBestMin l (b, m)).2) := by
  intro l
  induction l with
  | nil => intro b m; rfl
  | cons p rest ih =>
    intro b m
    simp only [List.map_cons, List.foldl_cons, runBestMin]
    by_cases h : p.2 < m
    · have hstep : selectStep true (some b, JSNum.num m) (p.1, JSNum.num p.2) =
          (some p.1, JSNum.num p.2) := by
        simp [selectStep, JSNum.blt, h]
      rw [hstep, if_pos h, ih]
    · have hstep : selectStep true (some b, JSNum.num m) (p.1, JSNum.num p.2) =
          (some b, JSNum.num m) := by
        simp [selectStep, JSNum.blt, h]
      rw [hstep, if_neg h, ih]

lemma getD_mem_of_lt {l : List (String × ℚ)} {j : ℕ} (hj : j < l.length) :
    l.getD j pairDefault ∈ l := by
  rw [List.getD_eq_getElem _ _ hj]
  exact List.getElem_mem _

lemma runBestMax_spec :
    ∀ (l : List (String × ℚ)) (acc : String × ℚ),
      ((∀ p ∈ l, p.2 ≤ acc.2) ∧ runBestMax l acc = acc) ∨
        (∃ i, i < l.length ∧ runBestMax l acc = l.getD i pairDefault ∧
          acc.2 < (l.getD i pairDefault).2 ∧
          (∀ j < l.length, (l.getD j pairDefault).2 ≤ (l.getD i pairDefault).2) ∧
          (∀ j < i, (l.getD j pairDefault).2 < (l.getD i pairDefault).2)) := by
  intro l
  induction l with
  | nil => intro acc; left; exact ⟨by simp, rfl⟩
  | cons p rest ih =>
    intro acc
    by_cases h : acc.2 < p.2
    · have hred : runBestMax (p :: rest) acc = runBestMax rest p := by
        simp [runBestMax, h]
      rcases ih p with ⟨hall, heq⟩ | ⟨i, hi, heq, hgt, hmax, hfirst⟩
      · right
        refine ⟨0, by simp, ?_, ?_, ?_, ?_⟩
        · rw [hred, heq]; rfl
        · simpa using h
        · intro j hj
          cases j with
          | zero => simp
          | succ j' =>
            simp only [List.getD_cons_succ, List.getD_cons_zero]
            exact hall _ (getD_mem_of_lt (by simpa using hj))
        · intro j hj; omega
      · right
        refine ⟨i + 1, by simpa using hi, ?_, ?_, ?_, ?_⟩
        · rw [hred, heq]; simp
        · simp only [List.getD_cons_succ]
          exact lt_trans h hgt
        · intro j hj
          cases j with
          | zero =>
            simp only [List.getD_cons_succ, List.getD_cons_zero]
            exact le_of_lt hgt
          | succ j' =>
            simp only [List.getD_cons_succ]
            exact hmax j' (by simpa using hj)
        · intro j hj
          cases j with
          | zero =>
            simp only [List.getD_cons_succ, List.getD_cons_zero]
            exact hgt
          | succ j' =>
            simp only [List.getD_cons_succ]
            exact hfirst j' (by omega)
    · have hred : runBestMax (p :: rest) acc = runBestMax rest acc := by
        simp [runBestMax, h]
      rcases ih acc with ⟨hall, heq⟩ | ⟨i, hi, heq, hgt, hmax, hfirst⟩
      · left
        refine ⟨?_, by rw [hred, heq]⟩
        intro q hq
        rcases List.mem_cons.mp hq with hq | hq
        · subst hq; exact le_of_not_lt h
        · exact hall q hq
      · right
        refine ⟨i + 1, by simpa using hi, ?_, ?_, ?_, ?_⟩
        · rw [hred, heq]; simp
        · simpa using hgt
        · intro j hj
          cases j with
          | zero =>
            simp only [List.getD_cons_succ, List.getD_cons_zero]
            exact le_of_lt (lt_of_le_of_lt (le_of_not_lt h) hgt)
          | succ j' =>
            simp only [List.getD_cons_succ]
            exact hmax j' (by simpa using hj)
        · intro j hj
          cases j with
          | zero =>
            simp only [List.getD_cons_succ, List.getD_cons_zero]
            exact lt_of_le_of_lt (le_of_not_lt h) hgt
          | succ j' =>
            simp only [List.getD_cons_succ]
            exact hfirst j' (by omega)

lemma runBestMin_spec :
    ∀ (l : List (String × ℚ)) (acc : String × ℚ),
      ((∀ p ∈ l, acc.2 ≤ p.2) ∧ runBestMin l acc = acc) ∨
        (∃ i, i < l.length ∧ runBestMin l acc = l.getD i pairDefault ∧
          (l.getD i pairDefault).2 < acc.2 ∧
          (∀ j < l.length, (l.getD i pairDefault).2 ≤ (l.getD j pairDefault).2) ∧
          (∀ j < i, (l.getD i pairDefault).2 < (l.getD j pairDefault).2)) := by
  intro l
  induction l with
  | nil => intro acc; left; exact ⟨by simp, rfl⟩
  | cons p rest ih =>
    intro acc
    by_cases h : p.2 < acc.2
    · have hred : runBestMin (p :: rest) acc = runBestMin rest p := by
        simp [runBestMin, h]
      rcases ih p with ⟨hall, heq⟩ | ⟨i, hi, heq, hgt, hmin, hfirst⟩
      · right
        refine ⟨0, by simp, ?_, ?_, ?_, ?_⟩
        · rw [hred, heq]; rfl
        · simpa using h
        · intro j hj
          cases j with
          | zero => simp
          | succ j' =>
            simp only [List.getD_cons_succ, List.getD_cons_zero]
            exact hall _ (getD_mem_of_lt (by simpa using hj))
        · intro j hj; omega
      · right
        refine ⟨i + 1, by simpa using hi, ?_, ?_, ?_, ?_⟩
        · rw [hred, heq]; simp
        · simp only [List.getD_cons_succ]
          exact lt_trans hgt h
        · intro j hj
          cases j with
          | zero =>
            simp only [List.getD_cons_succ, List.getD_cons_zero]
            exact le_of_lt hgt
          | succ j' =>
            simp only [List.getD_cons_succ]
            exact hmin j' (by simpa using hj)
        · intro j hj
          cases j with
          | zero =>
            simp only [List.getD_cons_succ, List.getD_cons_zero]
            exact hgt
          | succ j' =>
            simp only [List.getD_cons_succ]
            exact hfirst j' (by omega)
    · have hred : runBestMin (p :: rest) acc = runBestMin rest acc := by
        simp [runBestMin, h]
      rcases ih acc with ⟨hall, heq⟩ | ⟨i, hi, heq, hgt, hmin, hfirst⟩
      · left
        refine ⟨?_, by rw [hred, heq]⟩
        intro q hq
        rcases List.mem_cons.mp hq with hq | hq
        · subst hq; exact le_of_not_lt h
        · exact hall q hq
      · right
        refine ⟨i + 1, by simpa using hi, ?_, ?_, ?_, ?_⟩
        · rw [hred, heq]; simp
        · simpa using hgt
        · intro j hj
          cases j with
          | zero =>
            simp only [List.getD_cons_succ, List.getD_cons_zero]
            exact le_of_lt (lt_of_lt_of_le hgt (le_of_not_lt h))
          | succ j' =>
            simp only [List.getD_cons_succ]
            exact hmin j' (by simpa using hj)
        · intro j hj
          cases j with
          | zero =>
            simp only [List.getD_cons_succ, List.getD_cons_zero]
            exact lt_of_lt_of_le hgt (le_of_not_lt h)
          | succ j' =>
            simp only [List.getD_cons_succ]
            exact hfirst j' (by omega)

lemma selectBest_max_spec (vals : List (String × ℚ)) (hne : vals ≠ []) :
    ∃ i, i < vals.length ∧
      selectBest false (vals.map (fun q => (q.1, JSNum.num q.2))) =
        (some (vals.getD i pairDefault).1,
          JSNum.num (vals.getD i pairDefault).2) ∧
      (∀ j < vals.length,
        (vals.getD j pairDefault).2 ≤ (vals.getD i pairDefault).2) ∧
      (∀ j < i, (vals.getD j pairDefault).2 < (vals.getD i pairDefault).2) := by
  cases vals with
  | nil => exact absurd rfl hne
  | cons q vt =>
    have hinit : selectStep false (none, JSNum.ninf) (q.1, JSNum.num q.2) =
        (some q.1, JSNum.num q.2) := by
      simp [selectStep, JSNum.blt]
    have hstart : selectBest false ((q :: vt).map (fun r => (r.1, JSNum.num r.2))) =
        List.foldl (selectStep false)
          (selectStep false (none, JSNum.ninf) (q.1, JSNum.num q.2))
          (vt.map (fun r => (r.1, JSNum.num r.2))) := rfl
    have hsel : selectBest false ((q :: vt).map (fun r => (r.1, JSNum.num r.2))) =
        (some (runBestMax vt (q.1, q.2)).1,
          JSNum.num (runBestMax vt (q.1, q.2)).2) := by
      rw [hstart, hinit]
      exact foldl_selectStep_max vt q.1 q.2
    rcases runBestMax_spec vt (q.1, q.2) with ⟨hall, heq⟩ |
      ⟨i, hi, heq, hgt, hmax, hfirst⟩
    · refine ⟨0, by simp, ?_, ?_, ?_⟩
      · rw [hsel, heq]
        simp
      · intro j hj
        cases j with
        | zero => simp
        | succ j' =>
          simp only [List.getD_cons_succ, List.getD_cons_zero]
          exact hall _ (getD_mem_of_lt (by simpa using hj))
      · intro j hj
        omega
    · refine ⟨i + 1, by simpa using hi, ?_, ?_, ?_⟩
      · rw [hsel, heq]
        simp
      · intro j hj
        cases j with
        | zero =>
          simp only [List.getD_cons_succ, List.getD_cons_zero]
          exact le_of_lt hgt
        | succ j' =>
          simp only [List.getD_cons_succ]
          exact hmax j' (by simpa using hj)
      · intro j hj
        cases j with
        | zero =>
          simp only [List.getD_cons_succ, List.getD_cons_zero]
          exact hgt
        | succ j' =>
          simp only [List.getD_cons_succ]
          exact hfirst j' (by omega)

lemma selectBest_min_spec (vals : List (String × ℚ)) (hne : vals ≠ []) :
    ∃ i, i < vals.length ∧
      selectBest true (vals.map (fun q => (q.1, JSNum.num q.2))) =
        (some (vals.getD i pairDefault).1,
          JSNum.num (vals.getD i pairDefault).2) ∧
      (∀ j < vals.length,
        (vals.getD i pairDefault).2 ≤ (vals.getD j pairDefault).2) ∧
      (∀ j < i, (vals.getD i pairDefault).2 < (vals.getD j pairDefault).2) := by
  cases vals with
  | nil => exact absurd rfl hne
  | cons q vt =>
    have hinit : selectStep true (none, JSNum.inf) (q.1, JSNum.num q.2) =
        (some q.1, JSNum.num q.2) := by
      simp [selectStep, JSNum.blt]
    have hstart : selectBest true ((q :: vt).map (fun r => (r.1, JSNum.num r.2))) =
        List.foldl (selectStep true)
          (selectStep true (none, JSNum.inf) (q.1, JSNum.num q.2))
          (vt.map (fun r => (r.1, JSNum.num r.2))) := rfl
    have hsel : selectBest true ((q :: vt).map (fun r => (r.1, JSNum.num r.2))) =
        (some (runBestMin vt (q.1, q.2)).1,
          JSNum.num (runBestMin vt (q.1, q.2)).2) := by
      rw [hstart, hinit]
      exact foldl_selectStep_min vt q.1 q.2
    rcases runBestMin_spec vt (q.1, q.2) with ⟨hall, heq⟩ |
      ⟨i, hi, heq, hgt, hmin, hfirst⟩
    · refine ⟨0, by simp, ?_, ?_, ?_⟩
      · rw [hsel, heq]
        simp
      · intro j hj
        cases j with
        | zero => simp
        | succ j' =>
          simp only [List.getD_cons_succ, List.getD_cons_zero]
          exact hall _ (getD_mem_of_lt (by simpa using hj))
      · intro j hj
        omega
    · refine ⟨i + 1, by simpa using hi, ?_, ?_, ?_⟩
      · rw [hsel, heq]
        simp
      · intro j hj
        cases j with
        | zero =>
          simp only [List.getD_cons_succ, List.getD_cons_zero]
          exact le_of_lt hgt
        | succ j' =>
          simp only [List.getD_cons_succ]
          exact hmin j' (by simpa using hj)
      · intro j hj
        cases j with
        | zero =>
          simp only [List.getD_cons_succ, List.getD_cons_zero]
          exact hgt
        | succ j' =>
          simp only [List.getD_cons_succ]
          exact hfirst j' (by omega)

lemma jsSum_map_num :
    ∀ (l : List ℚ) (q : ℚ),
      (l.map JSNum.num).foldl JSNum.add (JSNum.num q) = JSNum.num (q + l.sum) := by
  intro l
  induction l with
  | nil => intro q; simp
  | cons a t ih =>
    intro q
    simp only [List.map_cons, List.foldl_cons, List.sum_cons]
    have hstep : JSNum.add (JSNum.num q) (JSNum.num a) = JSNum.num (q + a) := rfl
    rw [hstep, ih]
    ring_nf

lemma jsMean_map_num (l : List ℚ) (hne : l ≠ []) :
    jsMean (l.map JSNum.num) = JSNum.num (l.sum / l.length) := by
  have h1 : jsSum (l.map JSNum.num) = JSNum.num l.sum := by
    unfold jsSum
    rw [jsSum_map_num]
    ring_nf
  unfold jsMean
  rw [h1, List.length_map]
  show jsDiv l.sum l.length = JSNum.num (l.sum / l.length)
  unfold jsDiv
  have hlen : ((l.length : ℚ)) ≠ 0 := by
    have : l.length ≠ 0 := by
      intro h0
      exact hne (List.eq_nil_of_length_eq_zero h0)
    exact_mod_cast this
  rw [if_neg hlen]

lemma findBestWrites_num (writesR : List (String × List ℚ))
    (h : ∀ p ∈ writesR, p.2 ≠ []) :
    findBestWrites (writesR.map (fun p => (p.1, p.2.map JSNum.num))) =
      selectBest false
        ((writesR.map (fun p => (p.1, p.2.sum / (p.2.length : ℚ)))).map
          (fun q => (q.1, JSNum.num q.2))) := by
  unfold findBestWrites
  congr 1
  rw [List.map_map, List.map_map]
  apply List.map_congr_left
  intro p hp
  simp only [Function.comp_apply]
  rw [jsMean_map_num p.2 (h p hp)]

lemma findBestReads_num (readsR : List (String × List ℚ))
    (h : ∀ p ∈ readsR, p.2 ≠ []) :
    findBestReads (readsR.map (fun p => (p.1, p.2.map JSNum.num))) =
      selectBest true
        ((readsR.map (fun p => (p.1, p.2.sum / (p.2.length : ℚ)))).map
          (fun q => (q.1, JSNum.num q.2))) := by
  unfold findBestReads
  congr 1
  rw [List.map_map, List.map_map]
  apply List.map_congr_left
  intro p hp
  simp only [Function.comp_apply]
  rw [jsMean_map_num p.2 (h p hp)]

/-- C8: winner selection computes one scalar per backend — the mean of
the per-entity-type throughputs for writes, the mean of the
per-operation average latencies for reads (lower is better), the raw
throughput for concurrency — and selects, per category, the first
backend in iteration order attaining the extremal scalar (ties keep
the earlier backend, because the fold replaces the running best only on
a strict comparison).  Stated for finite (non-NaN) inputs with at least
one backend and a nonempty metric list per backend. -/
theorem c8_winner_selection (writesR readsR : List (String × List ℚ))
    (concR : List (String × ℚ)) :
    (writesR ≠ [] → (∀ p ∈ writesR, p.2 ≠ []) →
      ∃ i, i < (writesR.map
          (fun p => (p.1, p.2.sum / (p.2.length : ℚ)))).length ∧
        (generateSummary (writesR.map (fun p => (p.1, p.2.map JSNum.num)))
            (readsR.map (fun p => (p.1, p.2.map JSNum.num)))
            (concR.map (fun p => (p.1, JSNum.num p.2)))).writes =
          (some ((writesR.map (fun p => (p.1, p.2.sum / (p.2.length : ℚ)))).getD
              i pairDefault).1,
            JSNum.num ((writesR.map
              (fun p => (p.1, p.2.sum / (p.2.length : ℚ)))).getD i pairDefault).2) ∧
        (∀ j < (writesR.map (fun p => (p.1, p.2.sum / (p.2.length : ℚ)))).length,
          ((writesR.map (fun p => (p.1, p.2.sum / (p.2.length : ℚ)))).getD
              j pairDefault).2 ≤
            ((writesR.map (fun p => (p.1, p.2.sum / (p.2.length : ℚ)))).getD
              i pairDefault).2) ∧
        (∀ j < i,
          ((writesR.map (fun p => (p.1, p.2.sum / (p.2.length : ℚ)))).getD
              j pairDefault).2 <
            ((writesR.map (fun p => (p.1, p.2.sum / (p.2.length : ℚ)))).getD
              i pairDefault).2)) ∧
      (readsR ≠ [] → (∀ p ∈ readsR, p.2 ≠ []) →
        ∃ i, i < (readsR.map
            (fun p => (p.1, p.2.sum / (p.2.length : ℚ)))).length ∧
          (generateSummary (writesR.map (fun p => (p.1, p.2.map JSNum.num)))
              (readsR.map (fun p => (p.1, p.2.map JSNum.num)))
              (concR.map (fun p => (p.1, JSNum.num p.2)))).reads =
            (some ((readsR.map (fun p => (p.1, p.2.sum / (p.2.length : ℚ)))).getD
                i pairDefault).1,
              JSNum.num ((readsR.map
                (fun p => (p.1, p.2.sum / (p.2.length : ℚ)))).getD i pairDefault).2) ∧
          (∀ j < (readsR.map (fun p => (p.1, p.2.sum / (p.2.length : ℚ)))).length,
            ((readsR.map (fun p => (p.1, p.2.sum / (p.2.length : ℚ)))).getD
                i pairDefault).2 ≤
              ((readsR.map (fun p => (p.1, p.2.sum / (p.2.length : ℚ)))).getD
                j pairDefault).2) ∧
          (∀ j < i,
            ((readsR.map (fun p => (p.1, p.2.sum / (p.2.length : ℚ)))).getD
                i pairDefault).2 <
              ((readsR.map (fun p => (p.1, p.2.sum / (p.2.length : ℚ)))).getD
                j pairDefault).2)) ∧
      (concR ≠ [] →
        ∃ i, i < concR.length ∧
          (generateSummary (writesR.map (fun p => (p.1, p.2.map JSNum.num)))
              (readsR.map (fun p => (p.1, p.2.map JSNum.num)))
              (concR.map (fun p => (p.1, JSNum.num p.2)))).concurrency =
            (some (concR.getD i pairDefault).1,
              JSNum.num (concR.getD i pairDefault).2) ∧
          (∀ j < concR.length,
            (concR.getD j pairDefault).2 ≤ (concR.getD i pairDefault).2) ∧
          (∀ j < i,
            (concR.getD j pairDefault).2 < (concR.getD i pairDefault).2)) := by
  refine ⟨?_, ?_, ?_⟩
  · intro hne hall
    have hmapne : writesR.map (fun p => (p.1, p.2.sum / (p.2.length : ℚ))) ≠ [] := by
      simpa using hne
    obtain ⟨i, hi, heq, hmax, hfirst⟩ := selectBest_max_spec
      (writesR.map (fun p => (p.1, p.2.sum / (p.2.length : ℚ)))) hmapne
    refine ⟨i, hi, ?_, hmax, hfirst⟩
    have hsummary : (generateSummary
        (writesR.map (fun p => (p.1, p.2.map JSNum.num)))
        (readsR.map (fun p => (p.1, p.2.map JSNum.num)))
        (concR.map (fun p => (p.1, JSNum.num p.2)))).writes =
        findBestWrites (writesR.map (fun p => (p.1, p.2.map JSNum.num))) := rfl
    rw [hsummary, findBestWrites_num writesR hall, heq]
  · intro hne hall
    have hmapne : readsR.map (fun p => (p.1, p.2.sum / (p.2.length : ℚ))) ≠ [] := by
      simpa using hne
    obtain ⟨i, hi, heq, hmin, hfirst⟩ := selectBest_min_spec
      (readsR.map (fun p => (p.1, p.2.sum / (p.2.length : ℚ)))) hmapne
    refine ⟨i, hi, ?_, hmin, hfirst⟩
    have hsummary : (generateSummary
        (writesR.map (fun p => (p.1, p.2.map JSNum.num)))
        (readsR.map (fun p => (p.1, p.2.map JSNum.num)))
        (concR.map (fun p => (p.1, JSNum.num p.2)))).reads =
        findBestReads (readsR.map (fun p => (p.1, p.2.map JSNum.num))) := rfl
    rw [hsummary, findBestReads_num readsR hall, heq]
  · intro hne
    obtain ⟨i, hi, heq, hmax, hfirst⟩ := selectBest_max_spec concR hne
    refine ⟨i, by simpa using hi, ?_, hmax, hfirst⟩
    have hsummary : (generateSummary
        (writesR.map (fun p => (p.1, p.2.map JSNum.num)))
        (readsR.map (fun p => (p.1, p.2.map JSNum.num)))
        (concR.map (fun p => (p.1, JSNum.num p.2)))).concurrency =
        findBestConcurrency (concR.map (fun p => (p.1, JSNum.num p.2))) := rfl
    rw [hsummary]
    unfold findBestConcurrency
    exact heq

/-- C8, witness: two backends with write throughput means 1 and 3
(backend-b wins writes), read latency means 2 and 4 (backend-a wins
reads, lower is better), and tied concurrency throughputs 5 and 5
(the first backend in iteration order, backend-a, keeps the win). -/
theorem c8_winner_selection_witness :
    (([(dbA, [1]), (dbB, [3])] : List (String × List ℚ)) ≠ [] ∧
        (∀ p ∈ ([(dbA, [1]), (dbB, [3])] : List (String × List ℚ)), p.2 ≠ []) ∧
        ([(dbA, [2]), (dbB, [4])] : List (String × List ℚ)) ≠ [] ∧
        (∀ p ∈ ([(dbA, [2]), (dbB, [4])] : List (String × List ℚ)), p.2 ≠ []) ∧
        ([(dbA, 5), (dbB, 5)] : List (String × ℚ)) ≠ []) ∧
      (∃ i, i < (([(dbA, [1]), (dbB, [3])] : List (String × List ℚ)).map
          (fun p => (p.1, p.2.sum / (p.2.length : ℚ)))).length ∧
        (generateSummary
            (([(dbA, [1]), (dbB, [3])] : List (String × List ℚ)).map
              (fun p => (p.1, p.2.map JSNum.num)))
            (([(dbA, [2]), (dbB, [4])] : List (String × List ℚ)).map
              (fun p => (p.1, p.2.map JSNum.num)))
            (([(dbA, 5), (dbB, 5)] : List (String × ℚ)).map
              (fun p => (p.1, JSNum.num p.2)))).writes =
          (some ((([(dbA, [1]), (dbB, [3])] : List (String × List ℚ)).map
              (fun p => (p.1, p.2.sum / (p.2.length : ℚ)))).getD i pairDefault).1,
            JSNum.num ((([(dbA, [1]), (dbB, [3])] : List (String × List ℚ)).map
              (fun p => (p.1, p.2.sum / (p.2.length : ℚ)))).getD i pairDefault).2) ∧
        (∀ j < (([(dbA, [1]), (dbB, [3])] : List (String × List ℚ)).map
            (fun p => (p.1, p.2.sum / (p.2.length : ℚ)))).length,
          ((([(dbA, [1]), (dbB, [3])] : List (String × List ℚ)).map
              (fun p => (p.1, p.2.sum / (p.2.length : ℚ)))).getD j pairDefault).2 ≤
            ((([(dbA, [1]), (dbB, [3])] : List (String × List ℚ)).map
              (fun p => (p.1, p.2.sum / (p.2.length : ℚ)))).getD i pairDefault).2) ∧
        (∀ j < i,
          ((([(dbA, [1]), (dbB, [3])] : List (String × List ℚ)).map
              (fun p => (p.1, p.2.sum / (p.2.length : ℚ)))).getD j pairDefault).2 <
            ((([(dbA, [1]), (dbB, [3])] : List (String × List ℚ)).map
              (fun p => (p.1, p.2.sum / (p.2.length : ℚ)))).getD i pairDefault).2)) ∧
      (∃ i, i < ([(dbA, 5), (dbB, 5)] : List (String × ℚ)).length ∧
        (generateSummary
            (([(dbA, [1]), (dbB, [3])] : List (String × List ℚ)).map
              (fun p => (p.1, p.2.map JSNum.num)))
            (([(dbA, [2]), (dbB, [4])] : List (String × List ℚ)).map
              (fun p => (p.1, p.2.map JSNum.num)))
            (([(dbA, 5), (dbB, 5)] : List (String × ℚ)).map
              (fun p => (p.1, JSNum.num p.2)))).concurrency =
          (some (([(dbA, 5), (dbB, 5)] : List (String × ℚ)).getD i pairDefault).1,
            JSNum.num (([(dbA, 5), (dbB, 5)] : List (String × ℚ)).getD
              i pairDefault).2) ∧
        (∀ j < ([(dbA, 5), (dbB, 5)] : List (String × ℚ)).length,
          (([(dbA, 5), (dbB, 5)] : List (String × ℚ)).getD j pairDefault).2 ≤
            (([(dbA, 5), (dbB, 5)] : List (String × ℚ)).getD i pairDefault).2) ∧
        (∀ j < i,
          (([(dbA, 5), (dbB, 5)] : List (String × ℚ)).getD j pairDefault).2 <
            (([(dbA, 5), (dbB, 5)] : List (String × ℚ)).getD i pairDefault).2)) := by
  have h := c8_winner_selection [(dbA, [1]), (dbB, [3])] [(dbA, [2]), (dbB, [4])]
    [(dbA, 5), (dbB, 5)]
  refine ⟨⟨?_, ?_, ?_, ?_, ?_⟩, ?_, ?_⟩
  · simp
  · intro p hp
    rcases List.mem_cons.mp hp with hp | hp
    · subst hp; simp
    · rcases List.mem_cons.mp hp with hp | hp
      · subst hp; simp
      · simp at hp
  · simp
  · intro p hp
    rcases List.mem_cons.mp hp with hp | hp
    · subst hp; simp
    · rcases List.mem_cons.mp hp with hp | hp
      · subst hp; simp
      · simp at hp
  · simp
  · refine h.1 (by simp) ?_
    intro p hp
    rcases List.mem_cons.mp hp with hp | hp
    · subst hp; simp
    · rcases List.mem_cons.mp hp with hp | hp
      · subst hp; simp
      · simp at hp
  · exact h.2.2 (by simp)

end DbBenchmark
